import Mathlib

/-!
# go-stringify: a shallow embedding of `stringify.go`

The package renders Go values as JSON text by reflection.  The embedding keeps
the shape of the source:

* a Go value, as `reflect` sees it, is a `Value`;
* the output buffer `js.Sb` is threaded explicitly as a `String`;
* a run-time panic of the Go code is the result `none`.

Go strings are byte strings; the three `strings` functions the code uses are
called with ASCII arguments only (`,`, `omitempty`, the double quote), for which
working on characters and working on the bytes of a UTF-8 text give the same
result, so texts are Lean strings here.  Values are finite trees: a cyclic
pointer structure, on which the Go code does not terminate, is outside the
model.  The library function `cast.ToString` is outside the repository; it is
`castToString` here, which follows the type switch of the library on the
values of the model.
-/

set_option linter.unusedVariables false
set_option maxRecDepth 100000

namespace Stringify

/-! ## The `strings` functions used by the code -/

/-- The check `strings.HasPrefix`, on character lists. -/
def hasLead : List Char → List Char → Bool
  | _, [] => true
  | [], _ :: _ => false
  | c :: cs, p :: ps => c == p && hasLead cs ps

/-- The search behind `strings.Contains`: some suffix of the text starts with `sub`. -/
def containsChars (sub : List Char) : List Char → Bool
  | [] => sub.isEmpty
  | c :: cs => hasLead (c :: cs) sub || containsChars sub cs

/-- Go `strings.Contains(s, substr)`. -/
def Contains (s substr : String) : Bool := containsChars substr.data s.data

/-- The scan behind `strings.Replace(s, old, new, -1)` for a non-empty `old`: left to
right, every non-overlapping occurrence of `old` is replaced by `new`; `skip` counts
the characters of an occurrence that are still to be dropped. -/
def replaceChars (old new : List Char) : Nat → List Char → List Char
  | _, [] => []
  | skip + 1, _ :: cs => replaceChars old new skip cs
  | 0, c :: cs =>
    if hasLead (c :: cs) old then new ++ replaceChars old new (old.length - 1) cs
    else c :: replaceChars old new 0 cs

/-- Go `strings.Replace(s, old, new, -1)`. -/
def Replace (s old new : String) : String := ⟨replaceChars old.data new.data 0 s.data⟩

/-- The first piece of `strings.Split(s, sep)` for a non-empty `sep`: the text before the
first occurrence of `sep`. -/
def splitHeadChars (sep : List Char) : List Char → List Char
  | [] => []
  | c :: cs => if hasLead (c :: cs) sep then [] else c :: splitHeadChars sep cs

/-- Go `strings.Split(s, sep)[0]`. -/
def SplitHead (s sep : String) : String := ⟨splitHeadChars sep.data s.data⟩

/-! ## The data model -/

/-- A struct tag, as the list of its `key:"value"` pairs. -/
abbrev StructTag := List (String × String)

/-- Go `reflect.StructTag.Get`: the value stored under `key`, the empty text when there is none. -/
def StructTag.Get (tag : StructTag) (key : String) : String :=
  match tag.find? (fun p => p.1 == key) with
  | some p => p.2
  | none => ""

/-- The part of `reflect.StructField` the code reads. `PkgPath` is empty exactly for an
exported field. -/
structure StructField where
  Name : String
  PkgPath : String
  Tag : StructTag
  Anonymous : Bool
deriving DecidableEq

/-- A Go value as `reflect` sees it. `nilIface` and `iface` are the contents of a slot of
interface type (empty, or holding a dynamic value); `nilPtr` and `ptr` those of a pointer;
`namedStr` is a value of a defined type whose kind is `String`; `int` is a value of type
`int`, `byte` one of type `byte` (`uint8`), so that a slice whose elements are bytes is a
`[]byte`; `other` is a value of any remaining scalar kind, given by the text
`cast.ToString` makes of it and by whether it is the zero value of its type; a map is the
list of its entries in iteration order, each key given by its canonical text. Methods are
not part of a value: a type with a `String` or `Error` method, which `cast.ToString`
would call, is outside the model unless its kind is scalar (then it is an `other`). -/
inductive Value where
  | nilIface
  | iface (dyn : Value)
  | nilPtr
  | ptr (elem : Value)
  | str (s : String)
  | namedStr (s : String)
  | int (i : Int)
  | byte (b : Nat)
  | bool (b : Bool)
  | other (text : String) (zero : Bool)
  | struct (fields : List (StructField × Value))
  | nilMap
  | map (entries : List (String × Value))
  | nilSlice
  | slice (elems : List Value)
  | array (elems : List Value)

/-- Go `reflect.Value.Interface`, followed by the conversion to `interface{}`: a slot of
interface type yields its dynamic value. -/
def Value.Interface : Value → Value
  | .iface d => d.Interface
  | v => v

mutual
/-- The test `reflect.DeepEqual(value.Interface(), reflect.Zero(value.Type()).Interface())`
of lines 108-110: whether a value equals the zero value of its own type. -/
def DeepEqualZero : Value → Bool
  | .nilIface => true
  | .iface _ => false
  | .nilPtr => true
  | .ptr _ => false
  | .str s => s == ""
  | .namedStr s => s == ""
  | .int i => i == 0
  | .byte b => b == 0
  | .bool b => !b
  | .other _ zero => zero
  | .struct fields => fieldsZero fields
  | .nilMap => true
  | .map _ => false
  | .nilSlice => true
  | .slice _ => false
  | .array elems => elemsZero elems
/-- Every field of a struct, exported or not, is zero. -/
def fieldsZero : List (StructField × Value) → Bool
  | [] => true
  | (_, v) :: rest => DeepEqualZero v && fieldsZero rest
/-- Every element of an array is zero. -/
def elemsZero : List Value → Bool
  | [] => true
  | v :: rest => DeepEqualZero v && elemsZero rest
end

/-- The content of a `[]byte`: the elements of a slice when each of them is a byte, a byte
taken as the character with that code. -/
def bytesOf : List Value → Option (List Char)
  | [] => some []
  | .byte b :: rest => (bytesOf rest).map fun cs => Char.ofNat b :: cs
  | _ :: _ => none

/-- The function `cast.ToString` of the library `github.com/spf13/cast`, on the values of
the model: the decimal form of an integer or byte, `true` or `false`, the text itself (also
for a defined string type, which the current releases of the library resolve to `string`),
the content of a `[]byte` as text; pointers and interfaces are followed, and a value the
library cannot convert (an empty reference, a record, a mapping, a sequence that is not a
`[]byte`) gives the empty text. -/
def castToString : Value → String
  | .int i => toString i
  | .byte b => toString b
  | .bool b => toString b
  | .other text _ => text
  | .str s => s
  | .namedStr s => s
  | .slice elems =>
    match bytesOf elems with
    | some cs => ⟨cs⟩
    | none => ""
  | .ptr e => castToString e
  | .iface d => castToString d
  | _ => ""

/-- Go `Replacer`: `func(key string, value interface{}) (replace bool, newValue string)`. -/
abbrev Replacer := String → Value → Bool × String

/-- The writer `JSONStringify`. `Sb` is the content of the buffer the field points to. -/
structure JSONStringify where
  Sb : String
  TagName : String
  Replacer : Option Replacer

/-- The constant `defaultTagName`. -/
def defaultTagName : String := "json"

/-- Go `isIgnore`, after the pointer unwrapping that precedes each of its calls
(`if value.Kind() == reflect.Ptr { value = value.Elem() }`): `none` is the invalid value
that `Elem` gives for an empty pointer, which `isIgnore` reports. -/
def unwrap : Value → Option Value
  | .nilPtr => none
  | .ptr e => some e
  | v => some v

/-- Lines 193-199 of `do`: the literal of the Replacer when one is set and handles the pair. -/
def JSONStringify.replaced (js : JSONStringify) (key : String) (s : Value) : Option String :=
  match js.Replacer with
  | none => none
  | some r => if (r key s).1 then some (r key s).2 else none

/-- Lines 193-199 of `do` around the rest of the body: the literal is written and `do`
returns, or the default rendering `dflt` takes place. -/
def handledOr (handled : Option String) (sb : String) (dflt : Option String) : Option String :=
  match handled with
  | some lit => some (sb ++ lit)
  | none => dflt

/-- The `String` case of `do`, lines 214-217. -/
def writeQuoted (sb : String) (str : String) : String :=
  sb ++ "\"" ++ Replace str "\"" "\\\"" ++ "\""

/-- The frame of `St` around its loop: the braces of lines 65-67 and 128-130. -/
def StFrame (embedded : Bool) (loop : String → Option String) (sb : String) : Option String :=
  (loop (if !embedded then sb ++ "\x7b" else sb)).bind fun sb =>
    some (if !embedded then sb ++ "\x7d" else sb)

/-- Lines 89-113 of `St`, for an exported field whose value, after the unwrapping of lines
81-83, is the valid `value`: `none` when the loop continues with the next field (the tag
is `-`, or the tag contains `omitempty` and the value is zero), else the output key. -/
def StKey (js : JSONStringify) (field : StructField) (value : Value) : Option String :=
  let tagName := if js.TagName != "" then js.TagName else defaultTagName
  let tag := field.Tag.Get tagName
  if tag == "-" then none else
  let key := if tag != "" then SplitHead tag "," else field.Name
  if Contains tag "omitempty" && DeepEqualZero value then none else
  some key

/-- Lines 116-124 of `St`: the comma and the key, unless the field is anonymous. -/
def StLead (field : StructField) (first : Bool) (key : String) (sb : String) : String :=
  if !field.Anonymous then (if !first then sb ++ "," else sb) ++ "\"" ++ key ++ "\":" else sb

/-- Lines 150-157 of `Map`: the comma and the key. -/
def MapLead (first : Bool) (key : String) (sb : String) : String :=
  (if !first then sb ++ "," else sb) ++ "\"" ++ key ++ "\":"

/-- Lines 182-184 of `Array`: the comma. -/
def ArrayLead (first : Bool) (sb : String) : String :=
  if !first then sb ++ "," else sb

mutual
/-- Go `JSONStringify.do`. The slot `s` is converted to `interface{}` first (the
`value.Interface()` of the callers); then the Replacer is asked; then the value is
unwrapped once and rendered by kind. For a value that is not a pointer the cases of the
switch are written out here, for the target of a pointer they are `doElem`. -/
def do_ (js : JSONStringify) (key : String) (s : Value) (embedded : Bool) (sb : String) :
    Option String :=
  match s with
  | .iface d => do_ js key d embedded sb
  | .nilIface => handledOr (js.replaced key .nilIface) sb none
  | .nilPtr => handledOr (js.replaced key .nilPtr) sb none
  | .ptr e => handledOr (js.replaced key (.ptr e)) sb (doElem js e embedded sb)
  | .struct fields => handledOr (js.replaced key (.struct fields)) sb
      (StFrame embedded (fun sb => StLoop js fields true sb) sb)
  | .nilMap => handledOr (js.replaced key .nilMap) sb (some (sb ++ "\x7b" ++ "\x7d"))
  | .map entries => handledOr (js.replaced key (.map entries)) sb
      ((MapLoop js entries true (sb ++ "\x7b")).bind fun sb => some (sb ++ "\x7d"))
  | .nilSlice => handledOr (js.replaced key .nilSlice) sb (some (sb ++ "[" ++ "]"))
  | .slice elems => handledOr (js.replaced key (.slice elems)) sb
      ((ArrayLoop js elems 0 true (sb ++ "[")).bind fun sb => some (sb ++ "]"))
  | .array elems => handledOr (js.replaced key (.array elems)) sb
      ((ArrayLoop js elems 0 true (sb ++ "[")).bind fun sb => some (sb ++ "]"))
  | .str t => handledOr (js.replaced key (.str t)) sb (some (writeQuoted sb t))
  | .namedStr t => handledOr (js.replaced key (.namedStr t)) sb none
  | .int i => handledOr (js.replaced key (.int i)) sb (some (sb ++ castToString (.int i)))
  | .byte b => handledOr (js.replaced key (.byte b)) sb (some (sb ++ castToString (.byte b)))
  | .bool b => handledOr (js.replaced key (.bool b)) sb (some (sb ++ castToString (.bool b)))
  | .other t z => handledOr (js.replaced key (.other t z)) sb
      (some (sb ++ castToString (.other t z)))
/-- The switch of `do`, lines 204-220, on the target `v` of a pointer `s`. The type
assertion `v.Interface().(string)` of line 215 fails for a defined string type. -/
def doElem (js : JSONStringify) (v : Value) (embedded : Bool) (sb : String) : Option String :=
  match v with
  | .struct fields => StFrame embedded (fun sb => StLoop js fields true sb) sb
  | .nilMap => some (sb ++ "\x7b" ++ "\x7d")
  | .map entries => (MapLoop js entries true (sb ++ "\x7b")).bind fun sb => some (sb ++ "\x7d")
  | .nilSlice => some (sb ++ "[" ++ "]")
  | .slice elems => (ArrayLoop js elems 0 true (sb ++ "[")).bind fun sb => some (sb ++ "]")
  | .array elems => (ArrayLoop js elems 0 true (sb ++ "[")).bind fun sb => some (sb ++ "]")
  | .str t => some (writeQuoted sb t)
  | .namedStr _ => none
  | .nilIface => some (sb ++ castToString .nilIface)
  | .iface d => some (sb ++ castToString (.iface d))
  | .nilPtr => some (sb ++ castToString .nilPtr)
  | .ptr e => some (sb ++ castToString (.ptr e))
  | .int i => some (sb ++ castToString (.int i))
  | .byte b => some (sb ++ castToString (.byte b))
  | .bool b => some (sb ++ castToString (.bool b))
  | .other t z => some (sb ++ castToString (.other t z))
/-- The loop of `St`, lines 69-127, over the fields in declaration order. -/
def StLoop (js : JSONStringify) (fields : List (StructField × Value)) (first : Bool)
    (sb : String) : Option String :=
  match fields with
  | [] => some sb
  | (field, fv) :: rest =>
    if field.PkgPath != "" then StLoop js rest first sb else
    match fv with
    | .nilPtr => StLoop js rest first sb
    | .ptr e =>
      match StKey js field e with
      | none => StLoop js rest first sb
      | some key =>
        (do_ js key e field.Anonymous (StLead field first key sb)).bind fun sb =>
          StLoop js rest false sb
    | v =>
      match StKey js field v with
      | none => StLoop js rest first sb
      | some key =>
        (do_ js key v field.Anonymous (StLead field first key sb)).bind fun sb =>
          StLoop js rest false sb
/-- The loop of `Map`, lines 142-159, over the entries in iteration order. -/
def MapLoop (js : JSONStringify) (entries : List (String × Value)) (first : Bool)
    (sb : String) : Option String :=
  match entries with
  | [] => some sb
  | (key, mv) :: rest =>
    match mv with
    | .nilPtr => MapLoop js rest first sb
    | .ptr e =>
      (do_ js key e false (MapLead first key sb)).bind fun sb => MapLoop js rest false sb
    | v =>
      (do_ js key v false (MapLead first key sb)).bind fun sb => MapLoop js rest false sb
/-- The loop of `Array`, lines 173-187; `i` is the index of the head of `elems`. -/
def ArrayLoop (js : JSONStringify) (elems : List Value) (i : Nat) (first : Bool)
    (sb : String) : Option String :=
  match elems with
  | [] => some sb
  | ev :: rest =>
    match ev with
    | .nilPtr => ArrayLoop js rest (i + 1) first sb
    | .ptr e =>
      (do_ js (toString i) e false (ArrayLead first sb)).bind fun sb =>
        ArrayLoop js rest (i + 1) false sb
    | v =>
      (do_ js (toString i) v false (ArrayLead first sb)).bind fun sb =>
        ArrayLoop js rest (i + 1) false sb
end

/-- Go `JSONStringify.St`, for a struct value (or a pointer to one) with these fields. -/
def JSONStringify.St (js : JSONStringify) (fields : List (StructField × Value))
    (embedded : Bool) (sb : String) : Option String :=
  StFrame embedded (fun sb => StLoop js fields true sb) sb

/-- Go `JSONStringify.Map`, for a map (or a pointer to one) with these entries. -/
def JSONStringify.Map (js : JSONStringify) (entries : List (String × Value)) (sb : String) :
    Option String :=
  (MapLoop js entries true (sb ++ "\x7b")).bind fun sb => some (sb ++ "\x7d")

/-- Go `JSONStringify.Array`, for a slice or array (or a pointer to one) with these elements. -/
def JSONStringify.Array (js : JSONStringify) (elems : List Value) (sb : String) :
    Option String :=
  (ArrayLoop js elems 0 true (sb ++ "[")).bind fun sb => some (sb ++ "]")

/-- Go `JSONStringify.String`: renders into the buffer of the writer as it is and returns
the whole buffer, with the writer afterwards. -/
def JSONStringify.String_ (js : JSONStringify) (s : Value) : Option (String × JSONStringify) :=
  match do_ js "" s false js.Sb with
  | none => none
  | some sb => some (sb, { js with Sb := sb })

/-- The function `New` of `jsPool`: a writer with an empty buffer. -/
def New : JSONStringify := ⟨"", "", none⟩

/-- A state of `jsPool`: the writers that were put back and not handed out again. -/
abbrev Pool := List JSONStringify

/-- Go `jsPool.Get`: a writer that was put back, or a new one. -/
def Pool.Get : Pool → JSONStringify × Pool
  | [] => (New, [])
  | js :: rest => (js, rest)

/-- Go `String`, the entry point of the package: the text and the pool afterwards. A
panic leaves the function before `jsPool.Put`. -/
def String_ (pool : Pool) (s : Value) (replacer : Option Replacer) : Option String × Pool :=
  match (Pool.Get pool) with
  | (js, rest) =>
    match JSONStringify.String_ { js with Sb := "", Replacer := replacer } s with
    | none => (none, rest)
    | some (str, js) => (some str, js :: rest)

/-! ## The fixtures of `stringify_test.go` -/

/-- A field with a `json` tag. -/
def jsonField (name tag : String) : StructField := ⟨name, "", [("json", tag)], false⟩

/-- The test type `Other`. -/
def Other (name : String) (age : Int) (vip : Bool) (funny information : Value) : Value :=
  .struct [(jsonField "Name" "name,omitempty", .str name),
           (jsonField "Age" "age,omitempty", .int age),
           (jsonField "VIP" "vip,omitempty", .bool vip),
           (jsonField "Funny" "funny,omitempty", funny),
           (jsonField "Information" "information,omitempty", information)]

/-- The value `peter` of `getTestData`. -/
def peter : Value := .ptr (Other "peter\" don\"" 0 false .nilPtr .nilMap)

/-- The value `friends` of `getTestData`: two empty pointers, then `tom`. -/
def friends : Value := .slice [.nilPtr, .nilPtr, .ptr (Other "tom" 0 false .nilPtr .nilMap)]

/-- The result of `getTestData`, a pointer to a `Me`; the map `Information` in one of its
iteration orders. -/
def getTestData : Value :=
  .ptr (.struct [
    (⟨"Other", "", [], true⟩,
      Other "james" 18 false (.ptr (.bool false))
        (.map [("fav", .iface (.str "reading")), ("weight", .iface (.int 70)),
               ("male", .iface (.bool true)), ("bestFriend", .iface peter)])),
    (jsonField "ID" "id,omitempty", .str ""),
    (jsonField "Account" "account,omitempty", .str "test"),
    (jsonField "Password" "password,omitempty", .str "pwd"),
    (jsonField "Secret" "-", .str "none"),
    (jsonField "Detail" "detail,omitempty", .str "GitHub is where people build software. More than 31 million people use GitHub to discover, fork, and contribute to over 100 million projects."),
    (jsonField "Boss" "boss,omitempty", Other "boss" 0 false .nilPtr .nilMap),
    (jsonField "Leader" "leader,omitempty", .ptr (Other "" 30 false .nilPtr .nilMap)),
    (jsonField "Workmates" "workmates,omitempty",
      .slice [Other "jack" 0 false .nilPtr .nilMap,
              Other "tas" 0 false (.ptr (.bool true)) .nilMap]),
    (jsonField "Friends" "friends,omitempty", friends),
    (jsonField "Nil" "nil,omitempty", .nilSlice)])

/-- The function `replacer` of the test, on the pairs the test gives it: ASCII text values
of at least one character under any key, and values that are not text under keys other
than `account`. On other pairs the Go function panics (the assertion `value.(string)`
under `account`, the slice `v[0:1]` of an empty text) or cuts a text at a byte inside a
character; a Replacer of the model is a total function on texts and does not express
that. -/
def replacer : Replacer := fun key value =>
  if key == "password" then (true, "\"***\"")
  else match value with
    | .str v =>
      if key == "account" then
        (true, "\"" ++ String.mk (v.data.take 1) ++ "***" ++ String.mk (v.data.drop (v.length - 1)) ++ "\"")
      else if v.length > 30 then (true, "\"" ++ String.mk (v.data.take 30) ++ "...\"")
      else (false, "")
    | _ => (false, "")

/-! ## Notions used to state the properties -/

/-- A buffer transformer only appends: its result on `sb` is `sb` followed by its result on
the empty buffer. -/
def Framed (f : String → Option String) : Prop :=
  ∀ sb, f sb = (f "").map (fun out => sb ++ out)

/-- The tag of a field under the active tag identifier: `json` unless the writer names
another one. -/
def activeTag (js : JSONStringify) (field : StructField) : String :=
  field.Tag.Get (if js.TagName = "" then "json" else js.TagName)

/-- The first comma-separated segment of a tag. -/
def firstSegment (tag : String) : String := ⟨tag.data.takeWhile (fun c => c != ',')⟩

/-- The output key of a field: the first segment of its tag when it has one, else its
declared name. -/
def outputKey (js : JSONStringify) (field : StructField) : String :=
  if activeTag js field = "" then field.Name else firstSegment (activeTag js field)

/-- The omit-if-empty test as the code performs it at lines 107-112, on the value that
lines 81-83 have put in place of a pointer: `strings.Contains` finds `omitempty` anywhere
in the tag and the value, a pointer followed to its target, is the zero value of its type.
(The rule of the specification is `omitEmptyPolicy`.) -/
def omitExcluded (js : JSONStringify) (field : StructField) (value : Value) : Bool :=
  Contains (activeTag js field) "omitempty" && DeepEqualZero value

/-- The decision of the loop of `St` on one field: the field is written iff it is exported,
its tag is not exactly `-`, it is not an empty pointer and the test `omitExcluded` of the
code does not leave it out; the result is its output key and its value, a pointer followed
to its target. -/
def emittedField (js : JSONStringify) (p : StructField × Value) : Option (String × Value) :=
  match unwrap p.2 with
  | none => none
  | some value =>
    if p.1.PkgPath = "" ∧ activeTag js p.1 ≠ "-" ∧ omitExcluded js p.1 value = false then
      some (outputKey js p.1, value)
    else none

/-- The fields of a record that the loop of `St` writes, in declaration order. -/
def emittedFields (js : JSONStringify) (fields : List (StructField × Value)) :
    List (String × Value) :=
  fields.filterMap (emittedField js)

/-- The texts of a list of renderings, when none of them fails. -/
def allTexts : List (Option String) → Option (List String)
  | [] => some []
  | r :: rs => r.bind fun t => (allTexts rs).bind fun ts => some (t :: ts)

/-- The texts joined by commas; `first` tells whether the first of them is the first item
of the enclosing list, and so takes no comma. -/
def joinFrom : Bool → List String → String
  | _, [] => ""
  | first, t :: ts => (if first then "" else ",") ++ t ++ joinFrom false ts

/-- The text of one emitted field: its quoted key, a colon and the rendering of its value. -/
def fieldText (js : JSONStringify) (p : String × Value) : Option String :=
  (do_ js p.1 p.2 false "").map fun t => "\"" ++ p.1 ++ "\":" ++ t


/-- The writer that the entry point `String` renders with: the one the pool hands out,
its buffer reset and its Replacer assigned. -/
def entryWriter (pool : Pool) (replacer : Option Replacer) : JSONStringify :=
  { (Pool.Get pool).1 with Sb := "", Replacer := replacer }

/-- The record of the spec's first example: `Name` tagged `name`, `Age` tagged
`age,omitempty`. -/
def exampleRecord : List (StructField × Value) :=
  [(jsonField "Name" "name", .str "a\"b"), (jsonField "Age" "age,omitempty", .int 0)]

/-- A record with one field `Funny *bool` tagged `funny,omitempty`, as in the test type
`Other`. -/
def funnyRecord (funny : Value) : Value :=
  .struct [(jsonField "Funny" "funny,omitempty", funny)]

/-- The field list of a record `A int` tagged `a`, followed by an embedded `Other` named
`x`. -/
def embeddedSecond : List (StructField × Value) :=
  [(jsonField "A" "a", .int 1), (⟨"Other", "", [], true⟩, Other "x" 0 false .nilPtr .nilMap)]

/-- The field list of a record with an embedded `Other` that emits nothing, followed by
`A int` tagged `a`. -/
def embeddedEmpty : List (StructField × Value) :=
  [(⟨"Other", "", [], true⟩, Other "" 0 false .nilPtr .nilMap), (jsonField "A" "a", .int 1)]

/-- The record obtained by replacing each anonymous struct field, in place, by the fields
of the sub-record. -/
def flattenOnce : List (StructField × Value) → List (StructField × Value)
  | [] => []
  | (field, .struct sub) :: rest =>
    if field.Anonymous then sub ++ flattenOnce rest else (field, .struct sub) :: flattenOnce rest
  | p :: rest => p :: flattenOnce rest

/-- A record with the fields `Password` and `Secret` of the test type `Me`. -/
def secretRecord (password secret : String) : List (StructField × Value) :=
  [(jsonField "Password" "password,omitempty", .str password),
   (jsonField "Secret" "-", .str secret)]

/-- The elements of a sequence that are not empty pointers, in positional order, each
with its position in the sequence (the head has position `i`) and with a pointer followed
to its target. -/
def presentFrom (i : Nat) : List Value → List (Nat × Value)
  | [] => []
  | ev :: rest =>
    match unwrap ev with
    | none => presentFrom (i + 1) rest
    | some v => (i, v) :: presentFrom (i + 1) rest

/-- The text of one element of a sequence: the rendering of its value, under the decimal
form of its position as key. -/
def elemText (js : JSONStringify) (p : Nat × Value) : Option String :=
  do_ js (toString p.1) p.2 false ""

/-- The entries of a mapping whose value is not an empty pointer, in iteration order, a
pointer followed to its target. -/
def presentEntries : List (String × Value) → List (String × Value)
  | [] => []
  | (k, mv) :: rest =>
    match unwrap mv with
    | none => presentEntries rest
    | some v => (k, v) :: presentEntries rest

/-- A text with every double quote replaced by a backslash and a double quote, every other
character copied. -/
def escapeChars : List Char → List Char
  | [] => []
  | c :: cs => if c = '"' then '\\' :: '"' :: escapeChars cs else c :: escapeChars cs

/-- The escaped form of a text value. -/
def quoteEscaped (s : String) : String := ⟨escapeChars s.data⟩

/-- The sequence `["x", nil, "y"]` of optional strings of the spec's second example. -/
def optionalStrings : List Value := [.ptr (.str "x"), .nilPtr, .ptr (.str "y")]

/-- A mapping with an entry whose value is an empty pointer, after the map `Information`
of the test. -/
def informationEntries : List (String × Value) :=
  [("fav", .iface (.str "reading")), ("gone", .nilPtr), ("weight", .iface (.int 70)),
   ("male", .iface (.bool true)), ("bestFriend", .iface peter)]

/-- The number of positions of a text at which `sub` starts. -/
def countChars (sub : List Char) : List Char → Nat
  | [] => 0
  | c :: cs => (if hasLead (c :: cs) sub then 1 else 0) + countChars sub cs

/-- The number of occurrences of `sub` in `s`. -/
def Occurrences (s sub : String) : Nat := countChars sub.data s.data

/-- The fields of a record that embeds an `Other` named `in` and declares a field `Name`
of its own, tagged `name` like the one of `Other`, holding `out`. -/
def shadowRecord : List (StructField × Value) :=
  [(⟨"Other", "", [], true⟩, Other "in" 0 false .nilPtr .nilMap),
   (jsonField "Name" "name,omitempty", .str "out")]

/-- The text the code returns for the data of `TestString`, with the map `Information` in
the order of `getTestData`. -/
def testOutput : String :=
  "\x7b\"name\":\"james\",\"age\":18,\"information\":\x7b\"fav\":\"reading\",\"weight\":70,\"male\":true,\"bestFriend\":\x7b\"name\":\"peter\\\" don\\\"\"\x7d\x7d,\"account\":\"t***t\",\"password\":\"***\",\"detail\":\"GitHub is where people build s...\",\"boss\":\x7b\"name\":\"boss\"\x7d,\"leader\":\x7b\"age\":30\x7d,\"workmates\":[\x7b\"name\":\"jack\"\x7d,\x7b\"name\":\"tas\",\"funny\":true\x7d],\"friends\":[\x7b\"name\":\"tom\"\x7d]\x7d"

/-- The list `checkList` of `TestString`. -/
def checkList : List String :=
  ["\"account\":\"t***t\"", "\"password\":\"***\"", "\"name\":\"james\"", "\"age\":18",
   "\"detail\":\"GitHub is where people build s...\"", "\"fav\":\"reading\"", "\"weight\":70",
   "\"male\":true", "\"funny\":false", "\"bestFriend\":\x7b\"name\":\"peter\\\" don\\\"\"\x7d",
   "\"boss\":\x7b\"name\":\"boss\"\x7d", "\"leader\":\x7b\"age\":30\x7d", "\x7b\"name\":\"jack\"\x7d",
   "\x7b\"name\":\"tas\",\"funny\":true\x7d", "\x7b\"name\":\"tom\"\x7d"]

/-- The constant `stringifyOutputLength` of the test. -/
def stringifyOutputLength : Nat := 341

/-- The comma-separated segments of a text. -/
def segmentsChars : List Char → List (List Char)
  | [] => [[]]
  | c :: cs =>
    match segmentsChars cs with
    | [] => [[c]]
    | seg :: segs => if c = ',' then [] :: seg :: segs else (c :: seg) :: segs

/-- The modifier `omitempty` is one of the tag's comma-separated segments after the
first. -/
def hasOmitEmptyModifier (tag : String) : Bool :=
  ((segmentsChars tag.data).drop 1).contains "omitempty".data

/-- A record with one field `X int` under the given `json` tag. -/
def intRecord (tag : String) (x : Int) : Value := .struct [(jsonField "X" tag, .int x)]

/-- A field `Secret` tagged `json:"-"` and `yaml:"hidden,omitempty"`. -/
def twoTagField : StructField := ⟨"Secret", "", [("json", "-"), ("yaml", "hidden,omitempty")], false⟩

/-- The omit-if-empty exclusion as the specification states it: the modifier `omitempty`
is one of the tag's comma-separated segments after the first, and the field's value is the
zero value of the field's declared type (the value as the field holds it: a pointer is not
followed, so only an empty pointer is zero). -/
def omitEmptyPolicy (js : JSONStringify) (field : StructField) (fv : Value) : Bool :=
  hasOmitEmptyModifier (activeTag js field) && DeepEqualZero fv

/-- The emitted fields as the specification states them: a field is emitted iff it is
exported, its tag is not exactly `-`, it is not an empty pointer and the omit-if-empty
policy does not exclude it; the result is its output key and its value, a pointer followed
to its target. -/
def policyField (js : JSONStringify) (p : StructField × Value) : Option (String × Value) :=
  match unwrap p.2 with
  | none => none
  | some value =>
    if p.1.PkgPath = "" ∧ activeTag js p.1 ≠ "-" ∧ omitEmptyPolicy js p.1 p.2 = false then
      some (outputKey js p.1, value)
    else none

/-- The emitted fields of a record by the specification, in declaration order. -/
def policyFields (js : JSONStringify) (fields : List (StructField × Value)) :
    List (String × Value) :=
  fields.filterMap (policyField js)

/-- The text that the specification gives a record without anonymous fields: an opening
brace, the texts of the emitted fields separated by single commas, a closing brace. -/
def recordLayout (js : JSONStringify) (fields : List (StructField × Value)) : Option String :=
  (allTexts ((policyFields js fields).map (fieldText js))).map
    fun parts => "\x7b" ++ ",".intercalate parts ++ "\x7d"

/-- On this field the omit-if-empty test of the code gives the answer of the policy. The
two differ exactly when the tag contains `omitempty` elsewhere than as a segment after the
first and the value is zero, and when the field holds a non-empty pointer to a zero value
under the modifier. -/
def followsPolicy (js : JSONStringify) (p : StructField × Value) : Bool :=
  match unwrap p.2 with
  | none => true
  | some value => omitExcluded js p.1 value == omitEmptyPolicy js p.1 p.2

/-- A field on which the two omit-if-empty tests cannot differ: its tag contains
`omitempty` as a modifier segment or not at all, and the field is not a non-empty pointer
to a zero value under the modifier. -/
def modifierPlain (js : JSONStringify) (p : StructField × Value) : Bool :=
  (Contains (activeTag js p.1) "omitempty" == hasOmitEmptyModifier (activeTag js p.1)) &&
    (match p.2 with
      | .ptr e => !(hasOmitEmptyModifier (activeTag js p.1) && DeepEqualZero e)
      | _ => true)

/-- The values on which the loop over a record, mapping or sequence calls `do`: the field
values, entry values and elements that are not empty pointers, a pointer followed to its
target. -/
def kids : Value → List Value
  | .struct fields => fields.filterMap fun p => unwrap p.2
  | .map entries => entries.filterMap fun p => unwrap p.2
  | .slice elems => elems.filterMap unwrap
  | .array elems => elems.filterMap unwrap
  | _ => []

/-- Lines 200-220 of `do`: the rendering by kind that takes place when the Replacer does
not handle the pair. -/
def doSwitch (js : JSONStringify) (s : Value) (embedded : Bool) (sb : String) : Option String :=
  match s.Interface with
  | .nilIface => none
  | .nilPtr => none
  | .ptr e => doElem js e embedded sb
  | v => doElem js v embedded sb

/-- A Replacer that handles the key `2` only. -/
def indexReplacer : Replacer := fun key _ =>
  if key = "2" then (true, "\"third\"") else (false, "")

/-- The embedded field `Other` of the test type `Me`. -/
def otherField : StructField := ⟨"Other", "", [], true⟩

/-- The fields of the embedded `Other` of `getTestData`. -/
def jamesFields : List (StructField × Value) :=
  [(jsonField "Name" "name,omitempty", .str "james"),
   (jsonField "Age" "age,omitempty", .int 18),
   (jsonField "VIP" "vip,omitempty", .bool false),
   (jsonField "Funny" "funny,omitempty", .ptr (.bool false)),
   (jsonField "Information" "information,omitempty",
     .map [("fav", .iface (.str "reading")), ("weight", .iface (.int 70)),
           ("male", .iface (.bool true)), ("bestFriend", .iface peter)])]

/-- The fields of `getTestData` that `Me` declares itself. -/
def meOwnFields : List (StructField × Value) :=
  [(jsonField "ID" "id,omitempty", .str ""),
   (jsonField "Account" "account,omitempty", .str "test"),
   (jsonField "Password" "password,omitempty", .str "pwd"),
   (jsonField "Secret" "-", .str "none"),
   (jsonField "Detail" "detail,omitempty", .str "GitHub is where people build software. More than 31 million people use GitHub to discover, fork, and contribute to over 100 million projects."),
   (jsonField "Boss" "boss,omitempty", Other "boss" 0 false .nilPtr .nilMap),
   (jsonField "Leader" "leader,omitempty", .ptr (Other "" 30 false .nilPtr .nilMap)),
   (jsonField "Workmates" "workmates,omitempty",
     .slice [Other "jack" 0 false .nilPtr .nilMap,
             Other "tas" 0 false (.ptr (.bool true)) .nilMap]),
   (jsonField "Friends" "friends,omitempty", friends),
   (jsonField "Nil" "nil,omitempty", .nilSlice)]

/-- The bracket check: the characters are read from left to right, `st` is the stack of
the closing characters still expected; an opening brace or bracket pushes its closing
character, a closing one must be the top of the stack, any other character is passed
over. -/
def scanBrackets : List Char → List Char → Option (List Char)
  | [], st => some st
  | c :: cs, st =>
    if c = '{' then scanBrackets cs ('}' :: st)
    else if c = '[' then scanBrackets cs (']' :: st)
    else if c = '}' ∨ c = ']' then
      match st with
      | [] => none
      | top :: st => if top = c then scanBrackets cs st else none
    else scanBrackets cs st

/-- A text is a well-nested bracket string: the check ends with an empty stack. -/
def WellNested (s : String) : Bool := scanBrackets s.data [] == some []

/-- A brace or a bracket. -/
def isBracket (c : Char) : Bool := c == '{' || c == '}' || c == '[' || c == ']'

/-- A text with no brace and no bracket. -/
def bracketFree (s : String) : Bool := s.data.all fun c => !isBracket c

/-- The name of a field and all its tags have no brace and no bracket. -/
def fieldClean (field : StructField) : Bool :=
  bracketFree field.Name && field.Tag.all fun p => bracketFree p.2

mutual
/-- The texts, the canonical texts of scalars, the contents of byte slices and the keys of
a value contain no brace and no bracket. -/
def Clean : Value → Bool
  | .nilIface => true
  | .iface d => Clean d
  | .nilPtr => true
  | .ptr e => Clean e
  | .str s => bracketFree s
  | .namedStr s => bracketFree s
  | .int _ => true
  | .byte _ => true
  | .bool _ => true
  | .other text _ => bracketFree text
  | .struct fields => cleanFields fields
  | .nilMap => true
  | .map entries => cleanEntries entries
  | .nilSlice => true
  | .slice elems => cleanElems elems && bracketFree (castToString (.slice elems))
  | .array elems => cleanElems elems
/-- The fields of a record are clean. -/
def cleanFields : List (StructField × Value) → Bool
  | [] => true
  | (field, v) :: rest => fieldClean field && Clean v && cleanFields rest
/-- The entries of a mapping are clean. -/
def cleanEntries : List (String × Value) → Bool
  | [] => true
  | (k, v) :: rest => bracketFree k && Clean v && cleanEntries rest
/-- The elements of a sequence are clean. -/
def cleanElems : List Value → Bool
  | [] => true
  | v :: rest => Clean v && cleanElems rest
end

/-- A text is balanced: read from any stack of expected closing characters the bracket
check ends with the same stack, and the text has as many opening as closing braces and as
many opening as closing brackets. -/
def Bal (t : String) : Prop :=
  (∀ st, scanBrackets t.data st = some st) ∧
    t.data.count '{' = t.data.count '}' ∧ t.data.count '[' = t.data.count ']'

/-- A buffer transformer appends a balanced text. -/
def BalOut (f : String → Option String) : Prop :=
  ∀ sb out, f sb = some out → ∃ t, out = sb ++ t ∧ Bal t

/-- The text the code returns for the data of `TestString` when no Replacer is given. -/
def plainOutput : String :=
  "\x7b\"name\":\"james\",\"age\":18,\"information\":\x7b\"fav\":\"reading\",\"weight\":70,\"male\":true,\"bestFriend\":\x7b\"name\":\"peter\\\" don\\\"\"\x7d\x7d,\"account\":\"test\",\"password\":\"pwd\",\"detail\":\"GitHub is where people build software. More than 31 million people use GitHub to discover, fork, and contribute to over 100 million projects.\",\"boss\":\x7b\"name\":\"boss\"\x7d,\"leader\":\x7b\"age\":30\x7d,\"workmates\":[\x7b\"name\":\"jack\"\x7d,\x7b\"name\":\"tas\",\"funny\":true\x7d],\"friends\":[\x7b\"name\":\"tom\"\x7d]\x7d"

/-- A JSON value (RFC 8259); a number is kept as its text. -/
inductive JSON where
  | null
  | bool (b : Bool)
  | num (text : String)
  | str (s : String)
  | arr (items : List JSON)
  | obj (members : List (String × JSON))

/-- The value of a hexadecimal digit. -/
def hexValue (c : Char) : Option Nat :=
  if '0' ≤ c ∧ c ≤ '9' then some (c.toNat - 48)
  else if 'a' ≤ c ∧ c ≤ 'f' then some (c.toNat - 87)
  else if 'A' ≤ c ∧ c ≤ 'F' then some (c.toNat - 55)
  else none

/-- The character a one-letter escape of a JSON string stands for. -/
def escapeValue (c : Char) : Option Char :=
  if c = '"' then some '"'
  else if c = '\\' then some '\\'
  else if c = '/' then some '/'
  else if c = 'b' then some (Char.ofNat 8)
  else if c = 'f' then some (Char.ofNat 12)
  else if c = 'n' then some '\n'
  else if c = 'r' then some '\r'
  else if c = 't' then some '\t'
  else none

/-- The text a JSON string denotes, read after its opening quote (RFC 8259, section 7):
the string ends at the first unescaped double quote, after which nothing may follow; a
backslash starts an escape; a control character is not allowed. An escape `\uXXXX` gives
the character with that code (surrogate pairs are not combined). -/
def decodeChars : List Char → Option (List Char)
  | [] => none
  | c :: rest =>
    if c = '"' then (if rest.isEmpty then some [] else none)
    else if c = '\\' then
      match rest with
      | 'u' :: h1 :: h2 :: h3 :: h4 :: rest =>
        match hexValue h1, hexValue h2, hexValue h3, hexValue h4 with
        | some a, some b, some c, some d =>
          (decodeChars rest).map fun cs => Char.ofNat (((a * 16 + b) * 16 + c) * 16 + d) :: cs
        | _, _, _, _ => none
      | e :: rest =>
        match escapeValue e with
        | some x => (decodeChars rest).map fun cs => x :: cs
        | none => none
      | [] => none
    else if c.toNat < 32 then none
    else (decodeChars rest).map fun cs => c :: cs

/-- The text that a JSON string literal denotes, `none` when the literal is not a JSON
string. -/
def decodeString (lit : String) : Option String :=
  match lit.data with
  | c :: body => if c = '"' then (decodeChars body).map String.mk else none
  | [] => none

/-- The end of a JSON number (RFC 8259, section 6): nothing, or an exponent, which is `e`
or `E`, an optional sign and at least one digit. -/
def isJSONExp : List Char → Bool
  | [] => true
  | e :: rest =>
    (e == 'e' || e == 'E') &&
      (match rest with
        | [] => false
        | s :: ds =>
          if s = '+' ∨ s = '-' then !ds.isEmpty && ds.all Char.isDigit
          else (s :: ds).all Char.isDigit)

/-- What follows the integer part of a JSON number: an optional fraction, which is a point
and at least one digit, then an optional exponent. -/
def isJSONFrac : List Char → Bool
  | [] => true
  | c :: rest =>
    if c = '.' then
      !(rest.takeWhile Char.isDigit).isEmpty && isJSONExp (rest.dropWhile Char.isDigit)
    else isJSONExp (c :: rest)

/-- A JSON number without sign: the integer part is `0` or a non-zero digit followed by
digits; a fraction and an exponent may follow. -/
def isJSONNat : List Char → Bool
  | [] => false
  | d :: ds =>
    if d = '0' then isJSONFrac ds
    else d.isDigit && isJSONFrac (ds.dropWhile Char.isDigit)

/-- A JSON number: an optional minus sign, then a number without sign. -/
def isJSONNumber (text : String) : Bool :=
  match text.data with
  | c :: rest => if c = '-' then isJSONNat rest else isJSONNat (c :: rest)
  | [] => false

/-- No key occurs twice in the list. -/
def distinctKeys : List String → Bool
  | [] => true
  | k :: ks => !ks.contains k && distinctKeys ks

mutual
/-- The JSON grammar without insignificant whitespace: the value `j` is written as the
text `t`. The names of an object are distinct, so that the text has one parsed value (RFC
8259 leaves the reading of an object with a repeated name to the parser). -/
def Denotes : JSON → String → Prop
  | .null, t => t = "null"
  | .bool b, t => t = toString b
  | .num x, t => t = x ∧ isJSONNumber x = true
  | .str s, t => decodeString t = some s
  | .arr items, t =>
    ∃ parts, DenotesItems items parts ∧ t = "[" ++ ",".intercalate parts ++ "]"
  | .obj members, t =>
    distinctKeys (members.map Prod.fst) = true ∧
    ∃ parts, DenotesMembers members parts ∧ t = "\x7b" ++ ",".intercalate parts ++ "\x7d"
/-- The items of an array are written as the texts `parts`. -/
def DenotesItems : List JSON → List String → Prop
  | [], parts => parts = []
  | j :: items, parts => ∃ p ps, parts = p :: ps ∧ Denotes j p ∧ DenotesItems items ps
/-- The members of an object are written as the texts `parts`, each a string, a colon and
a value. -/
def DenotesMembers : List (String × JSON) → List String → Prop
  | [], parts => parts = []
  | (k, j) :: members, parts =>
    ∃ klit vt ps, parts = (klit ++ ":" ++ vt) :: ps ∧ decodeString klit = some k ∧
      Denotes j vt ∧ DenotesMembers members ps
end

mutual
/-- The JSON value a Go value stands for: a record is the object of the fields that the
specification emits (`policyField`), a mapping the object of its entries, a sequence the
array of its elements, entries and elements that are empty pointers left out; a scalar of
another kind is the boolean or the number that its canonical text names; pointers and
interfaces are followed. -/
def toJSON (js : JSONStringify) : Value → JSON
  | .nilIface => .null
  | .iface d => toJSON js d
  | .nilPtr => .null
  | .ptr e => toJSON js e
  | .str s => .str s
  | .namedStr s => .str s
  | .int i => .num (toString i)
  | .byte b => .num (toString b)
  | .bool b => .bool b
  | .other text _ =>
    if text = "true" then .bool true else if text = "false" then .bool false else .num text
  | .struct fields => .obj (membersOf js fields)
  | .nilMap => .obj []
  | .map entries => .obj (entriesOf js entries)
  | .nilSlice => .arr []
  | .slice elems => .arr (itemsOf js elems)
  | .array elems => .arr (itemsOf js elems)
/-- The members for the emitted fields of a record. -/
def membersOf (js : JSONStringify) : List (StructField × Value) → List (String × JSON)
  | [] => []
  | (field, fv) :: rest =>
    match policyField js (field, fv) with
    | none => membersOf js rest
    | some kv => (kv.1, toJSON js fv) :: membersOf js rest
/-- The members for the entries of a mapping. -/
def entriesOf (js : JSONStringify) : List (String × Value) → List (String × JSON)
  | [] => []
  | (k, mv) :: rest =>
    match unwrap mv with
    | none => entriesOf js rest
    | some _ => (k, toJSON js mv) :: entriesOf js rest
/-- The items for the elements of a sequence. -/
def itemsOf (js : JSONStringify) : List Value → List JSON
  | [] => []
  | ev :: rest =>
    match unwrap ev with
    | none => itemsOf js rest
    | some _ => toJSON js ev :: itemsOf js rest
end

/-- A text value that the code's escaping keeps intact: no backslash and no control
character. -/
def textTame (s : String) : Bool := s.data.all fun c => c != '\\' && !(c.toNat < 32)

/-- A key that can be written unescaped: no double quote, no backslash and no control
character. -/
def keyTame (s : String) : Bool :=
  s.data.all fun c => c != '"' && c != '\\' && !(c.toNat < 32)

/-- A field that is not anonymous and whose name and tags are tame keys. -/
def fieldTame (field : StructField) : Bool :=
  !field.Anonymous && keyTame field.Name && field.Tag.all fun p => keyTame p.2

mutual
/-- The values for which the output is a JSON document: texts are tame, keys are tame and
distinct within each object, scalars have a JSON number or a boolean as canonical text, no
field is anonymous, on every field the omit-if-empty test of the code gives the answer of
the policy, and `do` meets no empty reference, no defined string type and no pointer to a
pointer or to an interface. `target` tells that the value is the target of a pointer that
`do` has followed. -/
def tame (js : JSONStringify) (target : Bool) : Value → Bool
  | .nilIface => false
  | .iface d => !target && tame js false d
  | .nilPtr => false
  | .ptr e => !target && tame js true e
  | .str s => textTame s
  | .namedStr _ => false
  | .int _ => true
  | .byte _ => true
  | .bool _ => true
  | .other text _ => text == "true" || text == "false" || isJSONNumber text
  | .struct fields =>
    tameFields js fields && distinctKeys ((policyFields js fields).map Prod.fst)
  | .nilMap => true
  | .map entries =>
    tameEntries js entries && distinctKeys ((presentEntries entries).map Prod.fst)
  | .nilSlice => true
  | .slice elems => tameElems js elems
  | .array elems => tameElems js elems
/-- The fields of a record are tame. -/
def tameFields (js : JSONStringify) : List (StructField × Value) → Bool
  | [] => true
  | (field, fv) :: rest =>
    fieldTame field && followsPolicy js (field, fv) &&
    (match fv with
      | .nilPtr => true
      | .ptr e => tame js false e
      | v => tame js false v) && tameFields js rest
/-- The entries of a mapping are tame. -/
def tameEntries (js : JSONStringify) : List (String × Value) → Bool
  | [] => true
  | (k, mv) :: rest =>
    keyTame k &&
    (match mv with
      | .nilPtr => true
      | .ptr e => tame js false e
      | v => tame js false v) && tameEntries js rest
/-- The elements of a sequence are tame. -/
def tameElems (js : JSONStringify) : List Value → Bool
  | [] => true
  | ev :: rest =>
    (match ev with
      | .nilPtr => true
      | .ptr e => tame js false e
      | v => tame js false v) && tameElems js rest
end

/-- A field value, entry value or element is an empty pointer, or the value `do` is
called on is tame. -/
def childTame (js : JSONStringify) (fv : Value) : Bool :=
  match unwrap fv with
  | none => true
  | some w => tame js false w

/-- A record of measurements: a float `Ratio` of value -1.5, a byte `Flag`, a text
`Note` behind a pointer under the omit-if-empty modifier, and an empty pointer `Gone`. -/
def measuredRecord : List (StructField × Value) :=
  [(jsonField "Ratio" "ratio", .other "-1.5" false),
   (jsonField "Flag" "flag,omitempty", .byte 7),
   (jsonField "Note" "note,omitempty", .ptr (.str "a\"b")),
   (jsonField "Gone" "gone", .nilPtr)]

/-! ## Framing: every renderer only appends to the buffer -/

theorem Framed.write (t : String) : Framed (fun sb => some (sb ++ t)) := by
  intro sb; simp

theorem Framed.fail : Framed (fun _ => none) := by
  intro sb; simp

theorem Framed.pure : Framed (fun sb => some sb) := by
  intro sb; simp

theorem Framed.bind {f g : String → Option String} (hf : Framed f) (hg : Framed g) :
    Framed (fun sb => (f sb).bind g) := by
  intro sb
  show (f sb).bind g = Option.map (fun out => sb ++ out) ((f "").bind g)
  rw [hf sb]
  cases h : f "" with
  | none => simp
  | some t =>
    simp only [Option.map_some', Option.some_bind]
    rw [hg (sb ++ t), hg t]
    cases g "" <;> simp [String.append_assoc]

theorem Framed.handledOr (h : Option String) {d : String → Option String} (hd : Framed d) :
    Framed (fun sb => handledOr h sb (d sb)) := by
  cases h with
  | none => exact hd
  | some lit => exact Framed.write lit

theorem Framed.comp_write {f : String → Option String} (hf : Framed f) (w : String → String)
    (hw : ∀ sb, w sb = sb ++ w "") : Framed (fun sb => f (w sb)) := by
  intro sb
  show f (w sb) = Option.map (fun out => sb ++ out) (f (w ""))
  rw [hw sb, hf (sb ++ w ""), hf (w "")]
  cases f "" <;> simp [String.append_assoc]

theorem StLead_append (field : StructField) (first : Bool) (key sb : String) :
    StLead field first key sb = sb ++ StLead field first key "" := by
  unfold StLead
  cases field.Anonymous <;> cases first <;> simp [String.append_assoc]

theorem MapLead_append (first : Bool) (key sb : String) :
    MapLead first key sb = sb ++ MapLead first key "" := by
  unfold MapLead
  cases first <;> simp [String.append_assoc]

theorem ArrayLead_append (first : Bool) (sb : String) :
    ArrayLead first sb = sb ++ ArrayLead first "" := by
  unfold ArrayLead
  cases first <;> simp

theorem Framed.StFrame (embedded : Bool) {loop : String → Option String} (h : Framed loop) :
    Framed (StFrame embedded loop) := by
  cases embedded with
  | true =>
    have : Stringify.StFrame true loop = fun sb => (loop sb).bind fun sb => some sb := by
      funext sb; simp [Stringify.StFrame]
    rw [this]; exact Framed.bind h Framed.pure
  | false =>
    have : Stringify.StFrame false loop =
        fun sb => ((fun sb => loop (sb ++ "\x7b")) sb).bind fun sb => some (sb ++ "\x7d") := by
      funext sb; simp [Stringify.StFrame]
    rw [this]
    exact Framed.bind (Framed.comp_write h (fun sb => sb ++ "\x7b") (by simp)) (Framed.write "\x7d")

theorem StLoop_cons (js : JSONStringify) (field : StructField) (fv : Value)
    (rest : List (StructField × Value)) (first : Bool) (sb : String) :
    StLoop js ((field, fv) :: rest) first sb =
      if field.PkgPath != "" then StLoop js rest first sb else
      match unwrap fv with
      | none => StLoop js rest first sb
      | some value =>
        match StKey js field value with
        | none => StLoop js rest first sb
        | some key =>
          (do_ js key value field.Anonymous (StLead field first key sb)).bind fun sb =>
            StLoop js rest false sb := by
  cases fv <;> rfl

theorem MapLoop_cons (js : JSONStringify) (key : String) (mv : Value)
    (rest : List (String × Value)) (first : Bool) (sb : String) :
    MapLoop js ((key, mv) :: rest) first sb =
      match unwrap mv with
      | none => MapLoop js rest first sb
      | some value =>
        (do_ js key value false (MapLead first key sb)).bind fun sb =>
          MapLoop js rest false sb := by
  cases mv <;> rfl

theorem ArrayLoop_cons (js : JSONStringify) (ev : Value) (rest : List Value) (i : Nat)
    (first : Bool) (sb : String) :
    ArrayLoop js (ev :: rest) i first sb =
      match unwrap ev with
      | none => ArrayLoop js rest (i + 1) first sb
      | some value =>
        (do_ js (toString i) value false (ArrayLead first sb)).bind fun sb =>
          ArrayLoop js rest (i + 1) false sb := by
  cases ev <;> rfl

theorem StLoop_step_framed (js : JSONStringify) (field : StructField) (value : Value)
    (rest : List (StructField × Value)) (first : Bool)
    (hdo : ∀ key, Framed (fun sb => do_ js key value field.Anonymous sb))
    (hrest : ∀ first, Framed (fun sb => StLoop js rest first sb)) :
    Framed (fun sb =>
      match StKey js field value with
      | none => StLoop js rest first sb
      | some key =>
        (do_ js key value field.Anonymous (StLead field first key sb)).bind fun sb =>
          StLoop js rest false sb) := by
  cases StKey js field value with
  | none => exact hrest first
  | some key =>
    exact Framed.bind (Framed.comp_write (hdo key) (StLead field first key)
      (StLead_append field first key)) (hrest false)

theorem MapLoop_step_framed (js : JSONStringify) (key : String) (value : Value)
    (rest : List (String × Value)) (first : Bool)
    (hdo : Framed (fun sb => do_ js key value false sb))
    (hrest : ∀ first, Framed (fun sb => MapLoop js rest first sb)) :
    Framed (fun sb =>
      (do_ js key value false (MapLead first key sb)).bind fun sb =>
        MapLoop js rest false sb) :=
  Framed.bind (Framed.comp_write hdo (MapLead first key) (MapLead_append first key))
    (hrest false)

theorem ArrayLoop_step_framed (js : JSONStringify) (value : Value) (rest : List Value)
    (i : Nat) (first : Bool)
    (hdo : Framed (fun sb => do_ js (toString i) value false sb))
    (hrest : ∀ first, Framed (fun sb => ArrayLoop js rest (i + 1) first sb)) :
    Framed (fun sb =>
      (do_ js (toString i) value false (ArrayLead first sb)).bind fun sb =>
        ArrayLoop js rest (i + 1) false sb) :=
  Framed.bind (Framed.comp_write hdo (ArrayLead first) (ArrayLead_append first))
    (hrest false)

theorem Framed.closing {loop : String → Option String} (h : Framed loop) (l r : String) :
    Framed (fun sb => (loop (sb ++ l)).bind fun sb => some (sb ++ r)) :=
  Framed.bind (Framed.comp_write h (fun sb => sb ++ l) (by simp)) (Framed.write r)

mutual
theorem do_framed (js : JSONStringify) (key : String) (s : Value) (emb : Bool) :
    Framed (fun sb => do_ js key s emb sb) := by
  match s with
  | .iface d =>
    have h := do_framed js key d emb
    simpa only [do_] using h
  | .nilIface => simp only [do_]; exact Framed.handledOr _ Framed.fail
  | .nilPtr => simp only [do_]; exact Framed.handledOr _ Framed.fail
  | .ptr e => simp only [do_]; exact Framed.handledOr _ (doElem_framed js e emb)
  | .struct fields =>
    simp only [do_]
    exact Framed.handledOr _ (Framed.StFrame emb (StLoop_framed js fields true))
  | .nilMap =>
    simp only [do_, String.append_assoc]; exact Framed.handledOr _ (Framed.write _)
  | .map entries =>
    simp only [do_]
    exact Framed.handledOr _ (Framed.closing (MapLoop_framed js entries true) _ _)
  | .nilSlice =>
    simp only [do_, String.append_assoc]; exact Framed.handledOr _ (Framed.write _)
  | .slice elems =>
    simp only [do_]
    exact Framed.handledOr _ (Framed.closing (ArrayLoop_framed js elems 0 true) _ _)
  | .array elems =>
    simp only [do_]
    exact Framed.handledOr _ (Framed.closing (ArrayLoop_framed js elems 0 true) _ _)
  | .str t =>
    simp only [do_, writeQuoted, String.append_assoc]
    exact Framed.handledOr _ (Framed.write _)
  | .namedStr t => simp only [do_]; exact Framed.handledOr _ Framed.fail
  | .int i => simp only [do_]; exact Framed.handledOr _ (Framed.write _)
  | .byte b => simp only [do_]; exact Framed.handledOr _ (Framed.write _)
  | .bool b => simp only [do_]; exact Framed.handledOr _ (Framed.write _)
  | .other t z => simp only [do_]; exact Framed.handledOr _ (Framed.write _)
theorem doElem_framed (js : JSONStringify) (v : Value) (emb : Bool) :
    Framed (fun sb => doElem js v emb sb) := by
  match v with
  | .struct fields =>
    simp only [doElem]; exact Framed.StFrame emb (StLoop_framed js fields true)
  | .nilMap => simp only [doElem, String.append_assoc]; exact Framed.write _
  | .map entries =>
    simp only [doElem]; exact Framed.closing (MapLoop_framed js entries true) _ _
  | .nilSlice => simp only [doElem, String.append_assoc]; exact Framed.write _
  | .slice elems =>
    simp only [doElem]; exact Framed.closing (ArrayLoop_framed js elems 0 true) _ _
  | .array elems =>
    simp only [doElem]; exact Framed.closing (ArrayLoop_framed js elems 0 true) _ _
  | .str t => simp only [doElem, writeQuoted, String.append_assoc]; exact Framed.write _
  | .namedStr _ => simp only [doElem]; exact Framed.fail
  | .nilIface => simp only [doElem]; exact Framed.write _
  | .iface d => simp only [doElem]; exact Framed.write _
  | .nilPtr => simp only [doElem]; exact Framed.write _
  | .ptr e => simp only [doElem]; exact Framed.write _
  | .int i => simp only [doElem]; exact Framed.write _
  | .byte b => simp only [doElem]; exact Framed.write _
  | .bool b => simp only [doElem]; exact Framed.write _
  | .other t z => simp only [doElem]; exact Framed.write _
theorem StLoop_framed (js : JSONStringify) (fields : List (StructField × Value))
    (first : Bool) : Framed (fun sb => StLoop js fields first sb) := by
  match fields with
  | [] => simp only [StLoop]; exact Framed.pure
  | (field, fv) :: rest =>
    have hrest := fun first => StLoop_framed js rest first
    simp only [StLoop_cons]
    by_cases hp : (field.PkgPath != "") = true
    · simp only [hp, if_true]; exact hrest first
    · simp only [hp, if_false]
      cases fv with
      | nilPtr => exact hrest first
      | _ =>
        exact StLoop_step_framed js field _ rest first (fun key => do_framed js key _ _) hrest
theorem MapLoop_framed (js : JSONStringify) (entries : List (String × Value))
    (first : Bool) : Framed (fun sb => MapLoop js entries first sb) := by
  match entries with
  | [] => simp only [MapLoop]; exact Framed.pure
  | (key, mv) :: rest =>
    have hrest := fun first => MapLoop_framed js rest first
    simp only [MapLoop_cons]
    cases mv with
    | nilPtr => exact hrest first
    | _ => exact MapLoop_step_framed js key _ rest first (do_framed js key _ _) hrest
theorem ArrayLoop_framed (js : JSONStringify) (elems : List Value) (i : Nat)
    (first : Bool) : Framed (fun sb => ArrayLoop js elems i first sb) := by
  match elems with
  | [] => simp only [ArrayLoop]; exact Framed.pure
  | ev :: rest =>
    have hrest := fun first => ArrayLoop_framed js rest (i + 1) first
    simp only [ArrayLoop_cons]
    cases ev with
    | nilPtr => exact hrest first
    | _ => exact ArrayLoop_step_framed js _ rest i first (do_framed js _ _ _) hrest
end

/-! ## Records without anonymous fields -/

theorem intercalate_go (acc : String) (ts : List String) :
    String.intercalate.go acc "," ts = acc ++ joinFrom false ts := by
  induction ts generalizing acc with
  | nil => simp [String.intercalate.go, joinFrom]
  | cons t ts ih => simp [String.intercalate.go, joinFrom, ih, String.append_assoc]

theorem joinFrom_true (ts : List String) : joinFrom true ts = ",".intercalate ts := by
  cases ts with
  | nil => rfl
  | cons t ts => simp [String.intercalate, joinFrom, intercalate_go]

theorem hasLead_comma (c : Char) (cs : List Char) : hasLead (c :: cs) [','] = (c == ',') := by
  simp [hasLead]

theorem splitHeadChars_comma (cs : List Char) :
    splitHeadChars [','] cs = cs.takeWhile (fun c => c != ',') := by
  induction cs with
  | nil => rfl
  | cons c cs ih =>
    by_cases h : c = ','
    · subst h; simp [splitHeadChars, hasLead]
    · have hc : (c != ',') = true := by simp [h]
      simp [splitHeadChars, hasLead, h, ih, List.takeWhile, hc]

theorem SplitHead_comma (tag : String) : SplitHead tag "," = firstSegment tag := by
  simp [SplitHead, firstSegment, splitHeadChars_comma]

theorem StKey_eq (js : JSONStringify) (field : StructField) (value : Value) :
    StKey js field value =
      if activeTag js field ≠ "-" ∧ omitExcluded js field value = false then
        some (outputKey js field) else none := by
  have htag : (if (js.TagName != "") = true then js.TagName else defaultTagName) =
      (if js.TagName = "" then "json" else js.TagName) := by
    by_cases h : js.TagName = "" <;> simp [h, defaultTagName]
  simp only [StKey, htag, activeTag, omitExcluded, outputKey, SplitHead_comma]
  generalize field.Tag.Get (if js.TagName = "" then "json" else js.TagName) = tag
  by_cases h1 : tag = "-"
  · simp [h1]
  · by_cases h2 : tag = "" <;> cases h3 : (Contains tag "omitempty" && DeepEqualZero value) <;>
      simp [h1, h2, h3]

theorem StLoop_cons_emitted (js : JSONStringify) (field : StructField) (fv : Value)
    (rest : List (StructField × Value)) (first : Bool) (sb : String) :
    StLoop js ((field, fv) :: rest) first sb =
      match emittedField js (field, fv) with
      | none => StLoop js rest first sb
      | some (key, value) =>
        (do_ js key value field.Anonymous (StLead field first key sb)).bind fun sb =>
          StLoop js rest false sb := by
  rw [StLoop_cons]
  simp only [emittedField]
  by_cases hp : field.PkgPath = ""
  · cases hu : unwrap fv with
    | none => simp [hp]
    | some value =>
      simp only [hp, bne_self_eq_false, Bool.false_eq_true, if_false, StKey_eq, true_and]
      by_cases hk : activeTag js field ≠ "-" ∧ omitExcluded js field value = false
      · rw [if_pos hk, if_pos hk]
      · rw [if_neg hk, if_neg hk]
  · cases hu : unwrap fv with
    | none => simp [hp]
    | some value => simp [hp]

theorem emittedFields_cons (js : JSONStringify) (p : StructField × Value)
    (rest : List (StructField × Value)) :
    emittedFields js (p :: rest) =
      match emittedField js p with
      | none => emittedFields js rest
      | some kv => kv :: emittedFields js rest := by
  simp only [emittedFields, List.filterMap_cons]
  cases emittedField js p <;> rfl

theorem do_append (js : JSONStringify) (key : String) (s : Value) (emb : Bool) (sb : String) :
    do_ js key s emb sb = (do_ js key s emb "").map (fun out => sb ++ out) :=
  do_framed js key s emb sb

theorem StLoop_flat (js : JSONStringify) (fields : List (StructField × Value))
    (hanon : ∀ p ∈ fields, p.1.Anonymous = false) (first : Bool) (sb : String) :
    StLoop js fields first sb =
      (allTexts ((emittedFields js fields).map (fieldText js))).map
        (fun parts => sb ++ joinFrom first parts) := by
  induction fields generalizing first sb with
  | nil => simp [StLoop, emittedFields, allTexts, joinFrom]
  | cons p rest ih =>
    obtain ⟨field, fv⟩ := p
    have hf : field.Anonymous = false := hanon (field, fv) (List.mem_cons_self _ _)
    have hrest : ∀ p ∈ rest, p.1.Anonymous = false :=
      fun p hp => hanon p (List.mem_cons_of_mem _ hp)
    rw [StLoop_cons_emitted]
    cases he : emittedField js (field, fv) with
    | none => simp only [emittedFields_cons, he]; exact ih hrest first sb
    | some kv =>
      obtain ⟨key, value⟩ := kv
      simp only [emittedFields_cons, he, List.map_cons, allTexts]
      rw [do_append, hf]
      simp only [fieldText]
      cases hd : do_ js key value false "" with
      | none => simp
      | some t =>
        simp only [Option.map_some', Option.some_bind]
        rw [ih hrest false]
        cases allTexts (List.map (fieldText js) (emittedFields js rest)) with
        | none => simp
        | some ts =>
          cases first <;> simp [-String.reduceAppend, joinFrom, StLead, hf, String.append_assoc]



theorem String_fst (pool : Pool) (s : Value) (replacer : Option Replacer) :
    (String_ pool s replacer).1 = do_ (entryWriter pool replacer) "" s false "" := by
  unfold String_ entryWriter JSONStringify.String_
  cases pool with
  | nil => simp only [Pool.Get]; cases do_ _ "" s false "" <;> rfl
  | cons js rest => simp only [Pool.Get]; cases do_ _ "" s false "" <;> rfl

theorem do_struct_flat (js : JSONStringify) (hr : js.Replacer = none)
    (fields : List (StructField × Value)) (hanon : ∀ p ∈ fields, p.1.Anonymous = false)
    (key : String) (s : Value) (hs : s = .struct fields ∨ s = .ptr (.struct fields))
    (sb : String) :
    do_ js key s false sb =
      (allTexts ((emittedFields js fields).map (fieldText js))).map
        (fun parts => sb ++ "\x7b" ++ ",".intercalate parts ++ "\x7d") := by
  have hrep : ∀ v, js.replaced key v = none := fun v => by simp [JSONStringify.replaced, hr]
  have hbody : StFrame false (fun sb => StLoop js fields true sb) sb =
      (allTexts ((emittedFields js fields).map (fieldText js))).map
        (fun parts => sb ++ "\x7b" ++ ",".intercalate parts ++ "\x7d") := by
    simp only [StFrame, StLoop_flat js fields hanon, joinFrom_true]
    cases allTexts ((emittedFields js fields).map (fieldText js)) <;> simp
  rcases hs with rfl | rfl
  · simp only [do_, hrep, handledOr, hbody]
  · simp only [do_, doElem, hrep, handledOr, hbody]

theorem policyField_eq (js : JSONStringify) (p : StructField × Value)
    (h : followsPolicy js p = true) : policyField js p = emittedField js p := by
  simp only [followsPolicy] at h
  simp only [policyField, emittedField]
  cases hu : unwrap p.2 with
  | none => rfl
  | some v =>
    rw [hu] at h
    simp only [beq_iff_eq] at h
    simp only [h]

theorem followsPolicy_of_plain (js : JSONStringify) (p : StructField × Value)
    (h : modifierPlain js p = true) : followsPolicy js p = true := by
  obtain ⟨f, fv⟩ := p
  simp only [modifierPlain, Bool.and_eq_true, beq_iff_eq] at h
  obtain ⟨hc, hp⟩ := h
  simp only [followsPolicy, omitExcluded, omitEmptyPolicy, hc]
  cases fv <;> simp only [unwrap, beq_self_eq_true]
  case ptr e =>
    simp only [DeepEqualZero, Bool.and_false, beq_iff_eq]
    simpa only [Bool.not_eq_true'] using hp

theorem policyFields_eq (js : JSONStringify) (fields : List (StructField × Value))
    (h : ∀ p ∈ fields, followsPolicy js p = true) :
    policyFields js fields = emittedFields js fields := by
  induction fields with
  | nil => rfl
  | cons p rest ih =>
    simp only [policyFields, emittedFields, List.filterMap_cons,
      policyField_eq js p (h p (List.mem_cons_self _ _))]
    have := ih (fun q hq => h q (List.mem_cons_of_mem _ hq))
    simp only [policyFields, emittedFields] at this
    rw [this]

/-- C1: the layout of the claim, with the emitted fields that the claim describes, is not
what the code writes for every record. A field `X int` tagged `omitempty` and holding 0 is
emitted under the key `omitempty` (no segment after the first is the modifier), and a field
`Funny *bool` tagged `funny,omitempty` that points to `false` is emitted (a non-empty
pointer is not the zero value of its type): the layout is `{"omitempty":0}`, respectively
`{"funny":false}`, and the code returns `{}` for both. These are the defects of C16 and
C2. On every record without anonymous fields on whose fields the omit-if-empty test of the
code gives the answer of the policy, the code writes the layout, for a record given by
value or by pointer, with every buffer content and from every pool; the two tests agree
on every field whose tag has `omitempty` as a modifier or not at all and which is not a
non-empty pointer to a zero value under the modifier; a record with no emitted field has
the layout `{}`; the example record of the spec gives `{"name":"a\"b"}`. -/
theorem record_layout_omit_defects :
    recordLayout ⟨"", "", none⟩ [(jsonField "X" "omitempty", .int 0)] =
      some "\x7b\"omitempty\":0\x7d" ∧
    (String_ [] (intRecord "omitempty" 0) none).1 = some "\x7b\x7d" ∧
    recordLayout ⟨"", "", none⟩ [(jsonField "Funny" "funny,omitempty", .ptr (.bool false))] =
      some "\x7b\"funny\":false\x7d" ∧
    (String_ [] (funnyRecord (.ptr (.bool false))) none).1 = some "\x7b\x7d" ∧
    (∀ (js : JSONStringify) (fields : List (StructField × Value)) (key sb : String)
        (s : Value), js.Replacer = none → (∀ p ∈ fields, p.1.Anonymous = false) →
        (∀ p ∈ fields, followsPolicy js p = true) →
        s = Value.struct fields ∨ s = Value.ptr (.struct fields) →
        do_ js key s false sb = (recordLayout js fields).map fun t => sb ++ t) ∧
    (∀ (pool : Pool) (fields : List (StructField × Value)),
        (∀ p ∈ fields, p.1.Anonymous = false) →
        (∀ p ∈ fields, followsPolicy (entryWriter pool none) p = true) →
        (String_ pool (.struct fields) none).1 = recordLayout (entryWriter pool none) fields) ∧
    (∀ (js : JSONStringify) (p : StructField × Value),
        modifierPlain js p = true → followsPolicy js p = true) ∧
    (∀ (js : JSONStringify) (fields : List (StructField × Value)),
        policyFields js fields = [] → recordLayout js fields = some "\x7b\x7d") ∧
    (∀ p ∈ exampleRecord, followsPolicy ⟨"", "", none⟩ p = true) ∧
    recordLayout ⟨"", "", none⟩ exampleRecord = some "\x7b\"name\":\"a\\\"b\"\x7d" ∧
    (String_ [] (.struct exampleRecord) none).1 = some "\x7b\"name\":\"a\\\"b\"\x7d" := by
  have hlay : ∀ (js : JSONStringify) (fields : List (StructField × Value)) (key sb : String)
      (s : Value), js.Replacer = none → (∀ p ∈ fields, p.1.Anonymous = false) →
      (∀ p ∈ fields, followsPolicy js p = true) →
      s = Value.struct fields ∨ s = Value.ptr (.struct fields) →
      do_ js key s false sb = (recordLayout js fields).map fun t => sb ++ t := by
    intro js fields key sb s hr hanon hpol hs
    rw [do_struct_flat js hr fields hanon key s hs sb, recordLayout,
      policyFields_eq js fields hpol]
    cases allTexts ((emittedFields js fields).map (fieldText js)) <;>
      simp [String.append_assoc]
  refine ⟨by decide, by decide, by decide, by decide, hlay, ?_, followsPolicy_of_plain, ?_,
    by decide, by decide, by decide⟩
  · intro pool fields hanon hpol
    rw [String_fst, hlay (entryWriter pool none) fields "" "" _ rfl hanon hpol (Or.inl rfl)]
    cases recordLayout (entryWriter pool none) fields <;> simp
  · intro js fields he
    simp [recordLayout, he, allTexts, String.intercalate]

/-! ## Omit-if-empty and pointers -/

/-- C2: the code follows a pointer before its omit-if-empty test and compares the target
with the zero value of the target's type, so a field `Funny *bool` tagged `funny,omitempty`
that points to `false` is left out (the record renders as `{}`), although the pointer is
not the zero value of the declared type. On the data of `TestString` the code returns a
text of length 327, not the 341 the test requires; it contains every entry of the test's
`checkList` but `"funny":false`, and 341 is 327 plus the length of `"funny":false,`. -/
theorem omitempty_follows_pointer :
    (String_ [] (funnyRecord (.ptr (.bool false))) none).1 = some "\x7b\x7d" ∧
    (String_ [] (funnyRecord (.ptr (.bool true))) none).1 = some "\x7b\"funny\":true\x7d" ∧
    (String_ [] (funnyRecord .nilPtr) none).1 = some "\x7b\x7d" ∧
    DeepEqualZero (.ptr (.bool false)) = false ∧
    (String_ [] getTestData (some replacer)).1 = some testOutput ∧
    testOutput.length = 327 ∧
    stringifyOutputLength = testOutput.length + "\"funny\":false,".length ∧
    checkList.map (Contains testOutput) =
      [true, true, true, true, true, true, true, true, false, true, true, true, true, true,
        true] := by
  refine ⟨by decide, by decide, by decide, by decide, by decide, by decide, by decide,
    by decide⟩

/-! ## Anonymous fields -/

/-- C3: an anonymous field that is not the first emitted field gets no comma before the
first field of its sub-record, and one that emits nothing still makes the next field take
a comma: the record `A`, embedded `Other` renders as `{"a":1"name":"x"}` while its
flattening renders as `{"a":1,"name":"x"}`, and a record starting with an embedded `Other`
that emits nothing renders as `{,"a":1}` while its flattening renders as `{"a":1}`. -/
theorem embedded_comma_lost :
    (String_ [] (.struct embeddedSecond) none).1 = some "\x7b\"a\":1\"name\":\"x\"\x7d" ∧
    (String_ [] (.struct (flattenOnce embeddedSecond)) none).1 = some "\x7b\"a\":1,\"name\":\"x\"\x7d" ∧
    (String_ [] (.struct embeddedEmpty) none).1 = some "\x7b,\"a\":1\x7d" ∧
    (String_ [] (.struct (flattenOnce embeddedEmpty)) none).1 = some "\x7b\"a\":1\x7d" := by
  refine ⟨by decide, by decide, by decide, by decide⟩

/-! ## The Replacer -/

theorem do_handled (js : JSONStringify) (key lit : String) (emb : Bool) (sb : String) :
    ∀ x : Value, js.replaced key x.Interface = some lit →
      do_ js key x emb sb = some (sb ++ lit)
  | .iface d, h => by
    simp only [do_]
    exact do_handled js key lit emb sb d (by simpa only [Value.Interface] using h)
  | .nilIface, h | .nilPtr, h | .ptr _, h | .str _, h | .namedStr _, h | .int _, h | .byte _, h
  | .bool _, h | .other _ _, h | .struct _, h | .nilMap, h | .map _, h | .nilSlice, h
  | .slice _, h | .array _, h => by
    simp only [Value.Interface] at h
    simp only [do_, h, handledOr]

theorem replaced_of_handles (js : JSONStringify) (r : Replacer) (hjs : js.Replacer = some r)
    (k : String) (x : Value) (lit : String) (h : r k x = (true, lit)) :
    js.replaced k x = some lit := by
  simp [JSONStringify.replaced, hjs, h]

/-- C4: when the Replacer of the writer handles the pair `(k, x)` with the literal `lit`,
rendering the pair appends exactly `lit` to the buffer, whatever `x` is and whatever the
Replacer answers on any other pair (so no default rendering and no descent into `x` takes
place); the entry point then returns `lit` for the top-level pair, an emitted field with
key `k` contributes its comma, `"k":` and `lit`, and the test's `Password` field renders
as `"password":"***"`. -/
theorem replacer_precedence (js : JSONStringify) (r : Replacer) (hjs : js.Replacer = some r)
    (k : String) (x : Value) (lit : String) (h : r k x.Interface = (true, lit)) :
    (∀ emb sb, do_ js k x emb sb = some (sb ++ lit)) ∧
    (∀ (js2 : JSONStringify) (r2 : Replacer), js2.Replacer = some r2 →
      r2 k x.Interface = (true, lit) → ∀ emb sb, do_ js2 k x emb sb = do_ js k x emb sb) ∧
    (k = "" → ∀ pool : Pool, (String_ pool x (some r)).1 = some lit) ∧
    (∀ field fv rest first sb, field.Anonymous = false →
      emittedField js (field, fv) = some (k, x) →
      StLoop js ((field, fv) :: rest) first sb =
        StLoop js rest false (sb ++ (if first then "" else ",") ++ "\"" ++ k ++ "\":" ++ lit)) ∧
    (String_ [] (.struct (secretRecord "pwd" "none")) (some replacer)).1 =
      some "\x7b\"password\":\"***\"\x7d" := by
  have hrep := replaced_of_handles js r hjs k x.Interface lit h
  refine ⟨fun emb sb => do_handled js k lit emb sb x hrep, ?_, ?_, ?_, by decide⟩
  · intro js2 r2 hjs2 h2 emb sb
    rw [do_handled js k lit emb sb x hrep,
      do_handled js2 k lit emb sb x (replaced_of_handles js2 r2 hjs2 k x.Interface lit h2)]
  · intro hk pool
    subst hk
    rw [String_fst, do_handled (entryWriter pool (some r)) "" lit false "" x
      (replaced_of_handles _ r rfl "" x.Interface lit h)]
    simp
  · intro field fv rest first sb hanon he
    rw [StLoop_cons_emitted, he]
    simp only [hanon]
    rw [do_handled js k lit false _ x hrep]
    cases first <;> simp [-String.reduceAppend, StLead, hanon, String.append_assoc]

/-- The precedence theorem at the test's Replacer and its `password` key. -/
theorem replacer_precedence_witness :
    (⟨"", "", some replacer⟩ : JSONStringify).Replacer = some replacer ∧
    replacer "password" (Value.str "pwd").Interface = (true, "\"***\"") ∧
    do_ ⟨"", "", some replacer⟩ "password" (.str "pwd") false "" = some "\"***\"" :=
  ⟨rfl, by decide,
    ((replacer_precedence ⟨"", "", some replacer⟩ replacer rfl "password" (.str "pwd")
      "\"***\"" (by decide)).1 false "").trans (by decide)⟩

/-! ## Fields that are never written -/

theorem StLoop_skip (js : JSONStringify) (p : StructField × Value)
    (h : emittedField js p = none) (pre post : List (StructField × Value)) (first : Bool)
    (sb : String) :
    StLoop js (pre ++ p :: post) first sb = StLoop js (pre ++ post) first sb := by
  induction pre generalizing first sb with
  | nil =>
    obtain ⟨field, fv⟩ := p
    rw [List.nil_append, List.nil_append, StLoop_cons_emitted, h]
  | cons q pre ih =>
    obtain ⟨field, fv⟩ := q
    rw [List.cons_append, List.cons_append, StLoop_cons_emitted, StLoop_cons_emitted]
    cases emittedField js (field, fv) with
    | none => exact ih first sb
    | some kv => simp only [ih]

theorem St_skip (js : JSONStringify) (p : StructField × Value)
    (h : emittedField js p = none) (pre post : List (StructField × Value)) (emb : Bool)
    (sb : String) :
    js.St (pre ++ p :: post) emb sb = js.St (pre ++ post) emb sb := by
  simp only [JSONStringify.St, StFrame, StLoop_skip js p h]

theorem do_struct_St (js : JSONStringify) (key : String)
    (fields : List (StructField × Value)) (emb : Bool) (sb : String) :
    do_ js key (.struct fields) emb sb =
      handledOr (js.replaced key (.struct fields)) sb (js.St fields emb sb) := by
  simp only [do_, JSONStringify.St]

theorem do_struct_noReplacer (js : JSONStringify) (hr : js.Replacer = none) (key : String)
    (fields : List (StructField × Value)) (emb : Bool) (sb : String) :
    do_ js key (.struct fields) emb sb = js.St fields emb sb ∧
    do_ js key (.ptr (.struct fields)) emb sb = js.St fields emb sb := by
  have hrep : ∀ v, js.replaced key v = none := fun v => by simp [JSONStringify.replaced, hr]
  constructor
  · simp only [do_, hrep, handledOr, JSONStringify.St]
  · simp only [do_, doElem, hrep, handledOr, JSONStringify.St]

theorem emittedField_nilPtr (js : JSONStringify) (f : StructField) :
    emittedField js (f, .nilPtr) = none := by
  simp [emittedField, unwrap]

/-- C5: a field holding an empty pointer, whatever its tag, leaves no trace: the record
renderer `St` gives the same result as for the record without that field, for every
writer; so does `do` whenever the Replacer answers alike on the two records, and so does
the entry point `String` without Replacer, for the record given by value or by pointer. -/
theorem empty_pointer_field_absent (js : JSONStringify) (pre : List (StructField × Value))
    (f : StructField) (post : List (StructField × Value)) (emb : Bool) (sb : String)
    (pool : Pool) :
    js.St (pre ++ (f, .nilPtr) :: post) emb sb = js.St (pre ++ post) emb sb ∧
    (∀ key, js.replaced key (.struct (pre ++ (f, .nilPtr) :: post)) =
        js.replaced key (.struct (pre ++ post)) →
      do_ js key (.struct (pre ++ (f, .nilPtr) :: post)) emb sb =
        do_ js key (.struct (pre ++ post)) emb sb) ∧
    (String_ pool (.struct (pre ++ (f, .nilPtr) :: post)) none).1 =
      (String_ pool (.struct (pre ++ post)) none).1 ∧
    (String_ pool (.ptr (.struct (pre ++ (f, .nilPtr) :: post))) none).1 =
      (String_ pool (.ptr (.struct (pre ++ post))) none).1 := by
  have h := emittedField_nilPtr
  refine ⟨St_skip js _ (h js f) pre post emb sb, fun key hk => ?_, ?_, ?_⟩
  · rw [do_struct_St, do_struct_St, hk, St_skip js _ (h js f)]
  · rw [String_fst, String_fst, (do_struct_noReplacer _ rfl _ _ _ _).1,
      (do_struct_noReplacer _ rfl _ _ _ _).1, St_skip _ _ (h _ f)]
  · rw [String_fst, String_fst, (do_struct_noReplacer _ rfl _ _ _ _).2,
      (do_struct_noReplacer _ rfl _ _ _ _).2, St_skip _ _ (h _ f)]

theorem emittedField_dash (js : JSONStringify) (f : StructField) (v : Value)
    (h : activeTag js f = "-") : emittedField js (f, v) = none := by
  simp only [emittedField]
  cases unwrap v with
  | none => rfl
  | some value => simp [h]

/-- C9: a field whose tag under the active tag identifier is exactly `-` is never written,
whatever its value: the record renderer `St` gives the same result as for the record
without that field, so does `do` whenever the Replacer answers alike on the two records,
and so does the entry point `String` without Replacer when the pool's writer uses the same
tag identifier; in the test, `Secret` leaves no trace. -/
theorem skip_marker_field_absent (js : JSONStringify) (pre : List (StructField × Value))
    (f : StructField) (v : Value) (post : List (StructField × Value))
    (h : activeTag js f = "-") (emb : Bool) (sb : String) :
    js.St (pre ++ (f, v) :: post) emb sb = js.St (pre ++ post) emb sb ∧
    (∀ key, js.replaced key (.struct (pre ++ (f, v) :: post)) =
        js.replaced key (.struct (pre ++ post)) →
      do_ js key (.struct (pre ++ (f, v) :: post)) emb sb =
        do_ js key (.struct (pre ++ post)) emb sb) ∧
    (∀ pool : Pool, activeTag (entryWriter pool none) f = "-" →
      (String_ pool (.struct (pre ++ (f, v) :: post)) none).1 =
        (String_ pool (.struct (pre ++ post)) none).1) ∧
    (String_ [] (.struct (secretRecord "pwd" "none")) none).1 =
      some "\x7b\"password\":\"pwd\"\x7d" := by
  refine ⟨St_skip js _ (emittedField_dash js f v h) pre post emb sb, fun key hk => ?_, ?_,
    by decide⟩
  · rw [do_struct_St, do_struct_St, hk, St_skip js _ (emittedField_dash js f v h)]
  intro pool hp
  rw [String_fst, String_fst, (do_struct_noReplacer _ rfl _ _ _ _).1,
    (do_struct_noReplacer _ rfl _ _ _ _).1, St_skip _ _ (emittedField_dash _ f v hp)]

/-- The skip-marker theorem at the `Secret` field of the test. -/
theorem skip_marker_field_absent_witness :
    activeTag ⟨"", "", none⟩ (jsonField "Secret" "-") = "-" ∧
    JSONStringify.St ⟨"", "", none⟩
        ([(jsonField "Password" "password,omitempty", .str "pwd")] ++
          (jsonField "Secret" "-", .str "none") :: []) false "" =
      some "\x7b\"password\":\"pwd\"\x7d" :=
  ⟨by decide,
    ((skip_marker_field_absent ⟨"", "", none⟩ [(jsonField "Password" "password,omitempty", .str "pwd")]
      (jsonField "Secret" "-") (.str "none") [] (by decide) false "").1).trans (by decide)⟩

/-! ## Sequences and mappings -/

theorem ArrayLoop_flat (js : JSONStringify) (elems : List Value) (i : Nat) (first : Bool)
    (sb : String) :
    ArrayLoop js elems i first sb =
      (allTexts ((presentFrom i elems).map (elemText js))).map
        (fun parts => sb ++ joinFrom first parts) := by
  induction elems generalizing i first sb with
  | nil => simp [ArrayLoop, presentFrom, allTexts, joinFrom]
  | cons ev rest ih =>
    rw [ArrayLoop_cons]
    simp only [presentFrom]
    cases unwrap ev with
    | none => exact ih (i + 1) first sb
    | some v =>
      simp only [List.map_cons, allTexts, elemText]
      rw [do_append]
      cases do_ js (toString i) v false "" with
      | none => simp
      | some t =>
        simp only [Option.map_some', Option.some_bind]
        rw [ih (i + 1) false]
        cases allTexts (List.map (elemText js) (presentFrom (i + 1) rest)) with
        | none => simp
        | some ts =>
          cases first <;> simp [-String.reduceAppend, joinFrom, ArrayLead, String.append_assoc]

theorem MapLoop_flat (js : JSONStringify) (entries : List (String × Value)) (first : Bool)
    (sb : String) :
    MapLoop js entries first sb =
      (allTexts ((presentEntries entries).map (fieldText js))).map
        (fun parts => sb ++ joinFrom first parts) := by
  induction entries generalizing first sb with
  | nil => simp [MapLoop, presentEntries, allTexts, joinFrom]
  | cons p rest ih =>
    obtain ⟨k, mv⟩ := p
    rw [MapLoop_cons]
    simp only [presentEntries]
    cases unwrap mv with
    | none => exact ih first sb
    | some v =>
      simp only [List.map_cons, allTexts, fieldText]
      rw [do_append]
      cases do_ js k v false "" with
      | none => simp
      | some t =>
        simp only [Option.map_some', Option.some_bind]
        rw [ih false]
        cases allTexts (List.map (fieldText js) (presentEntries rest)) with
        | none => simp
        | some ts =>
          cases first <;> simp [-String.reduceAppend, joinFrom, MapLead, String.append_assoc]

theorem Array_flat (js : JSONStringify) (elems : List Value) (sb : String) :
    js.Array elems sb =
      (allTexts ((presentFrom 0 elems).map (elemText js))).map
        (fun parts => sb ++ "[" ++ ",".intercalate parts ++ "]") := by
  simp only [JSONStringify.Array, ArrayLoop_flat, joinFrom_true]
  cases allTexts ((presentFrom 0 elems).map (elemText js)) <;> simp

theorem Map_flat (js : JSONStringify) (entries : List (String × Value)) (sb : String) :
    js.Map entries sb =
      (allTexts ((presentEntries entries).map (fieldText js))).map
        (fun parts => sb ++ "\x7b" ++ ",".intercalate parts ++ "\x7d") := by
  simp only [JSONStringify.Map, MapLoop_flat, joinFrom_true]
  cases allTexts ((presentEntries entries).map (fieldText js)) <;> simp

theorem do_seq_noReplacer (js : JSONStringify) (hr : js.Replacer = none) (key : String)
    (elems : List Value) (emb : Bool) (sb : String) (s : Value)
    (hs : s = .slice elems ∨ s = .array elems ∨ s = .ptr (.slice elems) ∨
      s = .ptr (.array elems)) :
    do_ js key s emb sb = js.Array elems sb := by
  have hrep : ∀ v, js.replaced key v = none := fun v => by simp [JSONStringify.replaced, hr]
  rcases hs with rfl | rfl | rfl | rfl <;>
    simp only [do_, doElem, hrep, handledOr, JSONStringify.Array]

theorem do_map_noReplacer (js : JSONStringify) (hr : js.Replacer = none) (key : String)
    (entries : List (String × Value)) (emb : Bool) (sb : String) (s : Value)
    (hs : s = .map entries ∨ s = .ptr (.map entries)) :
    do_ js key s emb sb = js.Map entries sb := by
  have hrep : ∀ v, js.replaced key v = none := fun v => by simp [JSONStringify.replaced, hr]
  rcases hs with rfl | rfl <;>
    simp only [do_, doElem, hrep, handledOr, JSONStringify.Map]

theorem presentFrom_allNil (elems : List Value) (h : ∀ e ∈ elems, e = Value.nilPtr) (i : Nat) :
    presentFrom i elems = [] := by
  induction elems generalizing i with
  | nil => rfl
  | cons e rest ih =>
    have he : e = Value.nilPtr := h e (List.mem_cons_self _ _)
    subst he
    simp only [presentFrom, unwrap]
    exact ih (fun e he => h e (List.mem_cons_of_mem _ he)) (i + 1)

/-- C6: a slice or array (given by value or by pointer), rendered with no Replacer, is an
opening bracket, then the renderings of its elements that are not empty pointers, in
positional order and separated by single commas, then a closing bracket; a sequence whose
elements are all empty pointers, an empty one and a nil slice give `[]`; the sequence
`["x", nil, "y"]` of optional strings gives `["x","y"]` and the test's `Friends` gives
`[{"name":"tom"}]`. -/
theorem sequence_layout (js : JSONStringify) (hr : js.Replacer = none) (elems : List Value)
    (key : String) (emb : Bool) (sb : String) :
    (∀ s, s = Value.slice elems ∨ s = Value.array elems ∨ s = Value.ptr (.slice elems) ∨
        s = Value.ptr (.array elems) →
      do_ js key s emb sb =
        (allTexts ((presentFrom 0 elems).map (elemText js))).map
          (fun parts => sb ++ "[" ++ ",".intercalate parts ++ "]")) ∧
    ((∀ e ∈ elems, e = Value.nilPtr) → do_ js key (.slice elems) emb sb = some (sb ++ "[]")) ∧
    do_ js key .nilSlice emb sb = some (sb ++ "[]") ∧
    (String_ [] (.slice optionalStrings) none).1 = some "[\"x\",\"y\"]" ∧
    (String_ [] friends none).1 = some "[\x7b\"name\":\"tom\"\x7d]" := by
  have hrep : ∀ v, js.replaced key v = none := fun v => by simp [JSONStringify.replaced, hr]
  refine ⟨fun s hs => ?_, fun h => ?_, ?_, by decide, by decide⟩
  · rw [do_seq_noReplacer js hr key elems emb sb s hs, Array_flat]
  · rw [do_seq_noReplacer js hr key elems emb sb _ (Or.inl rfl), Array_flat,
      presentFrom_allNil elems h]
    simp [allTexts, String.intercalate, String.append_assoc]
  · simp [do_, hrep, handledOr, String.append_assoc]

/-- The sequence theorem at the spec's example `["x", nil, "y"]`. -/
theorem sequence_layout_witness :
    (⟨"", "", none⟩ : JSONStringify).Replacer = none ∧
    do_ ⟨"", "", none⟩ "" (.slice optionalStrings) false "" = some "[\"x\",\"y\"]" :=
  ⟨rfl, ((sequence_layout ⟨"", "", none⟩ rfl optionalStrings "" false "").1 _
    (Or.inl rfl)).trans (by decide)⟩

/-- C7: a mapping (given by value or by pointer), rendered with no Replacer, is an opening
brace, then for each entry, in iteration order, whose value is not an empty pointer the
quoted canonical text of the key, a colon and the rendering of the value, the entries
separated by single commas, then a closing brace; entries whose value is an empty pointer
contribute nothing, and an empty or nil mapping gives `{}`. -/
theorem mapping_layout (js : JSONStringify) (hr : js.Replacer = none)
    (entries : List (String × Value)) (key : String) (emb : Bool) (sb : String) :
    (∀ s, s = Value.map entries ∨ s = Value.ptr (.map entries) →
      do_ js key s emb sb =
        (allTexts ((presentEntries entries).map (fieldText js))).map
          (fun parts => sb ++ "\x7b" ++ ",".intercalate parts ++ "\x7d")) ∧
    do_ js key (.map []) emb sb = some (sb ++ "\x7b\x7d") ∧
    do_ js key .nilMap emb sb = some (sb ++ "\x7b\x7d") ∧
    (String_ [] (.map informationEntries) none).1 =
      some "\x7b\"fav\":\"reading\",\"weight\":70,\"male\":true,\"bestFriend\":\x7b\"name\":\"peter\\\" don\\\"\"\x7d\x7d" := by
  have hrep : ∀ v, js.replaced key v = none := fun v => by simp [JSONStringify.replaced, hr]
  refine ⟨fun s hs => ?_, ?_, ?_, by decide⟩
  · rw [do_map_noReplacer js hr key entries emb sb s hs, Map_flat]
  · rw [do_map_noReplacer js hr key [] emb sb _ (Or.inl rfl), Map_flat]
    simp [presentEntries, allTexts, String.intercalate, String.append_assoc]
  · simp [do_, hrep, handledOr, String.append_assoc]

/-- The mapping theorem at a map with an entry holding an empty pointer. -/
theorem mapping_layout_witness :
    (⟨"", "", none⟩ : JSONStringify).Replacer = none ∧
    do_ ⟨"", "", none⟩ "" (.map [("a", .int 1), ("b", .nilPtr), ("c", .ptr (.str "z"))]) false "" =
      some "\x7b\"a\":1,\"c\":\"z\"\x7d" :=
  ⟨rfl, ((mapping_layout ⟨"", "", none⟩ rfl [("a", .int 1), ("b", .nilPtr), ("c", .ptr (.str "z"))]
    "" false "").1 _ (Or.inl rfl)).trans (by decide)⟩

/-! ## Text values -/

theorem replaceChars_quote (cs : List Char) :
    replaceChars ['"'] ['\\', '"'] 0 cs = escapeChars cs := by
  induction cs with
  | nil => rfl
  | cons c cs ih =>
    by_cases h : c = '"'
    · subst h; simp [replaceChars, hasLead, escapeChars, ih]
    · simp [replaceChars, hasLead, escapeChars, ih, h]

theorem Replace_quote (s : String) : Replace s "\"" "\\\"" = quoteEscaped s := by
  show String.mk (replaceChars ['"'] ['\\', '"'] 0 s.data) = _
  rw [replaceChars_quote]; rfl

/-- C8: for every value `s` of type `string` the entry point without Replacer returns a
double quote, then `s` with every double quote replaced by backslash double-quote and every
other character (backslashes and control characters too) copied, then a double quote; the
same holds for a pointer to `s`; the test's `peter" don"` renders as `"peter\" don\""`. A
text value of a defined string type (`type Name string`) reaches the same case of `do`,
where the type assertion `v.Interface().(string)` panics: the call returns nothing, for
every text, also behind a pointer, in an interface and as the field of a record. -/
theorem text_escaping (pool : Pool) (s : String) :
    (String_ pool (.str s) none).1 = some ("\"" ++ quoteEscaped s ++ "\"") ∧
    (String_ pool (.ptr (.str s)) none).1 = some ("\"" ++ quoteEscaped s ++ "\"") ∧
    quoteEscaped "a\\b\n\"c" = "a\\b\n\\\"c" ∧
    (String_ [] (.str "peter\" don\"") none).1 = some "\"peter\\\" don\\\"\"" ∧
    (String_ pool (.namedStr s) none).1 = none ∧
    (String_ pool (.ptr (.namedStr s)) none).1 = none ∧
    (String_ pool (.iface (.namedStr s)) none).1 = none ∧
    (String_ [] (.namedStr "x") none).1 = none ∧
    (String_ [] (.struct [(jsonField "Name" "name", .namedStr "x")]) none).1 = none := by
  have hrep : ∀ v, (entryWriter pool none).replaced "" v = none := fun v => by
    simp [JSONStringify.replaced, entryWriter]
  refine ⟨?_, ?_, by decide, by decide, ?_, ?_, ?_, by decide, by decide⟩
  · rw [String_fst]
    simp [do_, hrep, handledOr, writeQuoted, Replace_quote, String.append_assoc]
  · rw [String_fst]
    simp [do_, doElem, hrep, handledOr, writeQuoted, Replace_quote, String.append_assoc]
  · rw [String_fst]
    simp [do_, hrep, handledOr]
  · rw [String_fst]
    simp [do_, doElem, hrep, handledOr]
  · rw [String_fst]
    simp [do_, hrep, handledOr]

/-! ## A key declared by a record and by its embedded sub-record -/

theorem StLoop_append (js : JSONStringify) (pre post : List (StructField × Value))
    (first : Bool) (sb : String) :
    StLoop js (pre ++ post) first sb =
      (StLoop js pre first sb).bind fun mid =>
        StLoop js post (first && (emittedFields js pre).isEmpty) mid := by
  induction pre generalizing first sb with
  | nil => simp [StLoop, emittedFields]
  | cons q pre ih =>
    obtain ⟨field, fv⟩ := q
    rw [List.cons_append, StLoop_cons_emitted, StLoop_cons_emitted, emittedFields_cons]
    cases emittedField js (field, fv) with
    | none => exact ih first sb
    | some kv =>
      obtain ⟨k, v⟩ := kv
      simp only [ih, Option.bind_assoc, List.isEmpty_cons, Bool.and_false, Bool.false_and]

theorem Framed.out {f : String → Option String} (hf : Framed f) {sb out : String}
    (h : f sb = some out) : ∃ t, f "" = some t ∧ out = sb ++ t := by
  rw [hf sb] at h
  cases ht : f "" with
  | none => rw [ht] at h; cases h
  | some t =>
    rw [ht] at h
    exact ⟨t, rfl, by simpa using h.symm⟩

theorem StLoop_field_written (js : JSONStringify) (pre post : List (StructField × Value))
    (f : StructField) (v x : Value) (k : String) (hf : f.Anonymous = false)
    (he : emittedField js (f, v) = some (k, x)) (first : Bool) (sb out : String)
    (h : StLoop js (pre ++ (f, v) :: post) first sb = some out) :
    ∃ a t b, do_ js k x false "" = some t ∧
      out = sb ++ a ++ ("\"" ++ k ++ "\":" ++ t) ++ b := by
  rw [StLoop_append] at h
  obtain ⟨m, hm, h⟩ := Option.bind_eq_some.1 h
  rw [StLoop_cons_emitted, he] at h
  simp only [hf] at h
  obtain ⟨m2, hm2, h⟩ := Option.bind_eq_some.1 h
  obtain ⟨a, -, rfl⟩ := (StLoop_framed js pre first).out hm
  obtain ⟨t, ht, rfl⟩ := (do_framed js k x false).out hm2
  obtain ⟨b, -, rfl⟩ := (StLoop_framed js post false).out h
  refine ⟨a ++ (if first && (emittedFields js pre).isEmpty then "" else ","), t, b, ht, ?_⟩
  cases (first && (emittedFields js pre).isEmpty) <;>
    simp [-String.reduceAppend, StLead, hf, String.append_assoc]

theorem StLoop_nil (js : JSONStringify) (first : Bool) (sb : String) :
    StLoop js [] first sb = some sb := by
  simp only [StLoop]

theorem do_embedded_noReplacer (js : JSONStringify) (hr : js.Replacer = none) (key : String)
    (fields : List (StructField × Value)) (sb : String) :
    do_ js key (.struct fields) true sb = StLoop js fields true sb := by
  have hrep : ∀ v, js.replaced key v = none := fun v => by simp [JSONStringify.replaced, hr]
  simp only [do_, hrep, handledOr, StFrame]
  cases h : StLoop js fields true sb <;> simp [h]

theorem StLoop_embedded_written (js : JSONStringify) (hr : js.Replacer = none)
    (pre post ipre ipost : List (StructField × Value)) (fa fi : StructField)
    (sv vi xi : Value) (ka k : String) (hfa : fa.Anonymous = true)
    (hfi : fi.Anonymous = false)
    (hea : emittedField js (fa, sv) = some (ka, .struct (ipre ++ (fi, vi) :: ipost)))
    (hei : emittedField js (fi, vi) = some (k, xi)) (first : Bool) (sb out : String)
    (h : StLoop js (pre ++ (fa, sv) :: post) first sb = some out) :
    ∃ a t b, do_ js k xi false "" = some t ∧
      out = sb ++ a ++ ("\"" ++ k ++ "\":" ++ t) ++ b := by
  rw [StLoop_append] at h
  obtain ⟨m1, hm1, h⟩ := Option.bind_eq_some.1 h
  rw [StLoop_cons_emitted, hea] at h
  simp only [hfa, StLead, Bool.not_true, Bool.false_eq_true, if_false] at h
  obtain ⟨m2, hin, h⟩ := Option.bind_eq_some.1 h
  rw [do_embedded_noReplacer js hr] at hin
  obtain ⟨a0, -, rfl⟩ := (StLoop_framed js pre first).out hm1
  obtain ⟨a, t, b, ht, rfl⟩ :=
    StLoop_field_written js ipre ipost fi vi xi k hfi hei true _ m2 hin
  obtain ⟨c, -, rfl⟩ := (StLoop_framed js post false).out h
  exact ⟨a0 ++ a, t, b ++ c, ht, by simp only [String.append_assoc]⟩

/-- C10, as amended: when a record declares a field with output key `k` and embeds a
sub-record that declares a field with the same key, all of them emitted and no Replacer
set, nothing is shadowed and both fields are written, in declaration order: every output
has the form `a ++ "k":<embedded> ++ b ++ "k":<outer> ++ c` when the embedded sub-record
is declared first, and `a ++ "k":<outer> ++ b ++ "k":<embedded> ++ c` when the outer field
is; the record with just the embedded sub-record and then the outer field renders as
`{"k":<embedded>,"k":<outer>}`. -/
theorem shadowing_both_written (js : JSONStringify) (hr : js.Replacer = none)
    (pre mid post ipre ipost : List (StructField × Value)) (fa fi fo : StructField)
    (sv vi vo xi xo : Value) (ka k key : String) (sb : String)
    (hfa : fa.Anonymous = true) (hfi : fi.Anonymous = false) (hfo : fo.Anonymous = false)
    (hea : emittedField js (fa, sv) = some (ka, .struct (ipre ++ (fi, vi) :: ipost)))
    (hei : emittedField js (fi, vi) = some (k, xi))
    (heo : emittedField js (fo, vo) = some (k, xo)) :
    (∀ out, do_ js key (.struct (pre ++ (fa, sv) :: (mid ++ (fo, vo) :: post))) false sb =
        some out →
      ∃ a b c tin tout, do_ js k xi false "" = some tin ∧ do_ js k xo false "" = some tout ∧
        out = a ++ ("\"" ++ k ++ "\":" ++ tin) ++ b ++ ("\"" ++ k ++ "\":" ++ tout) ++ c) ∧
    (∀ out, do_ js key (.struct (pre ++ (fo, vo) :: (mid ++ (fa, sv) :: post))) false sb =
        some out →
      ∃ a b c tin tout, do_ js k xi false "" = some tin ∧ do_ js k xo false "" = some tout ∧
        out = a ++ ("\"" ++ k ++ "\":" ++ tout) ++ b ++ ("\"" ++ k ++ "\":" ++ tin) ++ c) ∧
    (∀ tin tout, pre = [] → mid = [] → post = [] → ipre = [] → ipost = [] →
      do_ js k xi false "" = some tin → do_ js k xo false "" = some tout →
      do_ js key (.struct (pre ++ (fa, sv) :: (mid ++ (fo, vo) :: post))) false sb =
        some (sb ++ "\x7b" ++ ("\"" ++ k ++ "\":" ++ tin) ++ "," ++ ("\"" ++ k ++ "\":" ++ tout) ++
          "\x7d")) := by
  refine ⟨?_, ?_, ?_⟩
  · intro out h
    rw [(do_struct_noReplacer js hr key _ false sb).1] at h
    simp only [JSONStringify.St, StFrame] at h
    obtain ⟨m, h, hout⟩ := Option.bind_eq_some.1 h
    have hsplit : pre ++ (fa, sv) :: (mid ++ (fo, vo) :: post) =
        (pre ++ (fa, sv) :: []) ++ (mid ++ (fo, vo) :: post) := by simp
    rw [hsplit, StLoop_append] at h
    obtain ⟨m1, h1, h⟩ := Option.bind_eq_some.1 h
    obtain ⟨a, tin, b, htin, rfl⟩ := StLoop_embedded_written js hr pre [] ipre ipost fa fi
      sv vi xi ka k hfa hfi hea hei true _ m1 h1
    obtain ⟨a2, tout, b2, htout, rfl⟩ :=
      StLoop_field_written js mid post fo vo xo k hfo heo _ _ m h
    refine ⟨sb ++ "\x7b" ++ a, b ++ a2, b2 ++ "\x7d", tin, tout, htin, htout, ?_⟩
    simp only [Bool.not_false, if_true, Option.some.injEq] at hout
    rw [← hout]
    simp only [String.append_assoc]
  · intro out h
    rw [(do_struct_noReplacer js hr key _ false sb).1] at h
    simp only [JSONStringify.St, StFrame] at h
    obtain ⟨m, h, hout⟩ := Option.bind_eq_some.1 h
    have hsplit : pre ++ (fo, vo) :: (mid ++ (fa, sv) :: post) =
        (pre ++ (fo, vo) :: []) ++ (mid ++ (fa, sv) :: post) := by simp
    rw [hsplit, StLoop_append] at h
    obtain ⟨m1, h1, h⟩ := Option.bind_eq_some.1 h
    obtain ⟨a, tout, b, htout, rfl⟩ :=
      StLoop_field_written js pre [] fo vo xo k hfo heo true _ m1 h1
    obtain ⟨a2, tin, b2, htin, rfl⟩ := StLoop_embedded_written js hr mid post ipre ipost fa fi
      sv vi xi ka k hfa hfi hea hei _ _ m h
    refine ⟨sb ++ "\x7b" ++ a, b ++ a2, b2 ++ "\x7d", tin, tout, htin, htout, ?_⟩
    simp only [Bool.not_false, if_true, Option.some.injEq] at hout
    rw [← hout]
    simp only [String.append_assoc]
  · intro tin tout h1 h2 h3 h4 h5 htin htout
    subst h1 h2 h3 h4 h5
    simp only [List.nil_append] at hea ⊢
    rw [(do_struct_noReplacer js hr key _ false sb).1]
    simp only [JSONStringify.St, StFrame, List.nil_append, Bool.not_false, if_true]
    rw [StLoop_cons_emitted, hea]
    simp only [hfa, StLead, Bool.not_true, Bool.false_eq_true, if_false]
    rw [do_embedded_noReplacer js hr, StLoop_cons_emitted, hei]
    simp only [hfi, StLead, Bool.not_false, Bool.not_true, Bool.false_eq_true, if_true,
      if_false]
    rw [do_append, htin]
    simp only [Option.map_some', Option.some_bind, StLoop_nil]
    rw [StLoop_cons_emitted, heo]
    simp only [hfo, StLead, Bool.not_false, if_true]
    rw [do_append, htout]
    simp [-String.reduceAppend, StLoop_nil, String.append_assoc]

/-- The amended shadowing theorem at a record that embeds an `Other` named `in` and declares
its own `Name`, holding `out`, under the same key: the output splits as stated. -/
theorem shadowing_both_written_witness :
    ∃ a b c tin tout,
      do_ ⟨"", "", none⟩ "name" (.str "in") false "" = some tin ∧
      do_ ⟨"", "", none⟩ "name" (.str "out") false "" = some tout ∧
      "\x7b\"name\":\"in\",\"name\":\"out\"\x7d" =
        a ++ ("\"" ++ "name" ++ "\":" ++ tin) ++ b ++ ("\"" ++ "name" ++ "\":" ++ tout) ++ c :=
  (shadowing_both_written ⟨"", "", none⟩ rfl [] [] [] []
    [(jsonField "Age" "age,omitempty", .int 0), (jsonField "VIP" "vip,omitempty", .bool false),
     (jsonField "Funny" "funny,omitempty", .nilPtr),
     (jsonField "Information" "information,omitempty", .nilMap)]
    ⟨"Other", "", [], true⟩ (jsonField "Name" "name,omitempty")
    (jsonField "Name" "name,omitempty")
    (Other "in" 0 false .nilPtr .nilMap) (.str "in") (.str "out")
    (.str "in") (.str "out") "Other" "name" "" "" rfl rfl rfl rfl rfl rfl).1
    "\x7b\"name\":\"in\",\"name\":\"out\"\x7d" (by decide)

/-- C10, the claim as stated fails: the record that embeds an `Other` named `in` and
declares its own `Name`, holding `out`, under the same key `name` renders with the key
written twice, the embedded value first, and not as the object with the outer value
only. -/
theorem shadowing_counterexample :
    (String_ [] (.struct shadowRecord) none).1 =
      some "\x7b\"name\":\"in\",\"name\":\"out\"\x7d" ∧
    Occurrences "\x7b\"name\":\"in\",\"name\":\"out\"\x7d" "\"name\":" = 2 ∧
    (String_ [] (.struct shadowRecord) none).1 ≠ some "\x7b\"name\":\"out\"\x7d" := by
  refine ⟨by decide, by decide, by decide⟩

/-! ## Empty references at `do` -/

/-- C12: `do` has no test for the invalid value that an empty reference unwraps to, and
the default case of its switch calls `Interface` on it, which panics: the entry point fails
for an empty pointer and for an empty interface passed at top level, for an empty interface
held in a mapping value, in a sequence element and in a record field, and for an empty
pointer held in an interface, whatever the pool; only empty pointers met by the loops of
`St`, `Map` and `Array` are skipped. -/
theorem empty_reference_panics (pool : Pool) :
    (String_ pool .nilPtr none).1 = none ∧
    (String_ pool .nilIface none).1 = none ∧
    (String_ pool (.map [("a", .nilIface)]) none).1 = none ∧
    (String_ pool (.slice [.nilIface]) none).1 = none ∧
    (String_ pool (.struct [(⟨"X", "", [], false⟩, .nilIface)]) none).1 = none ∧
    (String_ pool (.map [("a", .iface .nilPtr)]) none).1 = none ∧
    (String_ pool (.slice [.nilPtr]) none).1 = some "[]" ∧
    (String_ pool (.map [("a", .nilPtr)]) none).1 = some "\x7b\x7d" := by
  have hrep : ∀ key v, (entryWriter pool none).replaced key v = none := fun key v => by
    simp [JSONStringify.replaced, entryWriter]
  simp only [String_fst]
  refine ⟨?_, ?_, ?_, ?_, ?_, ?_, ?_, ?_⟩ <;>
    simp [do_, MapLoop, ArrayLoop, StLoop, StFrame, StKey, Contains, containsChars,
      StructTag.Get, hasLead, hrep, handledOr, StLead, MapLead, ArrayLead]

/-! ## The omit-if-empty test on the tag -/

/-- C16: the code tests `strings.Contains(tag, "omitempty")` on the whole tag, so a field
whose key is `omitempty` or `notomitempty`, with no modifier after the first segment, is
left out when it holds 0 (the record renders as `{}`), although it is exported, not
skipped and not a pointer; with a non-zero value, or under another key, it is written. -/
theorem omitempty_matched_in_key :
    hasOmitEmptyModifier "omitempty" = false ∧
    (String_ [] (intRecord "omitempty" 0) none).1 = some "\x7b\x7d" ∧
    hasOmitEmptyModifier "notomitempty" = false ∧
    (String_ [] (intRecord "notomitempty" 0) none).1 = some "\x7b\x7d" ∧
    hasOmitEmptyModifier "x,omitempty" = true ∧
    (String_ [] (intRecord "omitempty" 1) none).1 = some "\x7b\"omitempty\":1\x7d" ∧
    (String_ [] (intRecord "x" 0) none).1 = some "\x7b\"x\":0\x7d" := by
  refine ⟨by decide, by decide, by decide, by decide, by decide, by decide, by decide⟩

/-! ## Induction on values -/

theorem Value.strong (Q : Value → Prop)
    (h : ∀ v, (∀ w, sizeOf w < sizeOf v → Q w) → Q v) (v : Value) : Q v := by
  have key : ∀ n (v : Value), sizeOf v = n → Q v := by
    intro n
    induction n using Nat.strong_induction_on with
    | _ n ih =>
      intro v hv
      exact h v (fun w hw => ih (sizeOf w) (hv ▸ hw) w rfl)
  exact key _ v rfl

theorem unwrap_size {fv w : Value} (h : unwrap fv = some w) : sizeOf w ≤ sizeOf fv := by
  cases fv <;> simp only [unwrap, Option.some.injEq, reduceCtorEq] at h <;> subst h <;>
    simp

theorem kids_size {v w : Value} (h : w ∈ kids v) : sizeOf w < sizeOf v := by
  cases v <;> simp only [kids, List.mem_filterMap, List.not_mem_nil] at h
  case struct fields =>
    obtain ⟨p, hp, hw⟩ := h
    have h1 := List.sizeOf_lt_of_mem hp
    have h2 := unwrap_size hw
    obtain ⟨f, fv⟩ := p
    simp at h1 h2 ⊢
    omega
  case map entries =>
    obtain ⟨p, hp, hw⟩ := h
    have h1 := List.sizeOf_lt_of_mem hp
    have h2 := unwrap_size hw
    obtain ⟨k, mv⟩ := p
    simp at h1 h2 ⊢
    omega
  case slice elems =>
    obtain ⟨p, hp, hw⟩ := h
    have h1 := List.sizeOf_lt_of_mem hp
    have h2 := unwrap_size hw
    simp at h1 h2 ⊢
    omega
  case array elems =>
    obtain ⟨p, hp, hw⟩ := h
    have h1 := List.sizeOf_lt_of_mem hp
    have h2 := unwrap_size hw
    simp at h1 h2 ⊢
    omega

/-! ## Writers with the same tag identifier and Replacer render alike -/

theorem kids_struct_cons (p : StructField × Value) (rest : List (StructField × Value))
    (w : Value) (h : w ∈ kids (.struct rest)) : w ∈ kids (.struct (p :: rest)) := by
  simp only [kids, List.filterMap_cons] at h ⊢
  cases unwrap p.2 <;> simp [h]

theorem kids_struct_head (f : StructField) (fv w : Value) (rest : List (StructField × Value))
    (h : unwrap fv = some w) : w ∈ kids (.struct ((f, fv) :: rest)) := by
  simp [kids, List.filterMap_cons, h]

theorem kids_map_cons (p : String × Value) (rest : List (String × Value))
    (w : Value) (h : w ∈ kids (.map rest)) : w ∈ kids (.map (p :: rest)) := by
  simp only [kids, List.filterMap_cons] at h ⊢
  cases unwrap p.2 <;> simp [h]

theorem kids_map_head (k : String) (mv w : Value) (rest : List (String × Value))
    (h : unwrap mv = some w) : w ∈ kids (.map ((k, mv) :: rest)) := by
  simp [kids, List.filterMap_cons, h]

theorem kids_slice_cons (ev : Value) (rest : List Value)
    (w : Value) (h : w ∈ kids (.slice rest)) : w ∈ kids (.slice (ev :: rest)) := by
  simp only [kids, List.filterMap_cons] at h ⊢
  cases unwrap ev <;> simp [h]

theorem kids_slice_head (ev w : Value) (rest : List Value)
    (h : unwrap ev = some w) : w ∈ kids (.slice (ev :: rest)) := by
  simp [kids, List.filterMap_cons, h]

theorem kids_array (elems : List Value) : kids (.array elems) = kids (.slice elems) := rfl

/-- Two writers with the same tag identifier and the same Replacer. -/
theorem StKey_congr (js js2 : JSONStringify) (ht : js.TagName = js2.TagName)
    (field : StructField) (value : Value) : StKey js field value = StKey js2 field value := by
  simp only [StKey, ht]

theorem replaced_congr (js js2 : JSONStringify) (hr : js.Replacer = js2.Replacer)
    (key : String) (v : Value) : js.replaced key v = js2.replaced key v := by
  simp only [JSONStringify.replaced, hr]

theorem StLoop_congr (js js2 : JSONStringify) (ht : js.TagName = js2.TagName)
    (fields : List (StructField × Value))
    (hk : ∀ w ∈ kids (.struct fields), ∀ key emb sb,
      do_ js key w emb sb = do_ js2 key w emb sb) (first : Bool) (sb : String) :
    StLoop js fields first sb = StLoop js2 fields first sb := by
  induction fields generalizing first sb with
  | nil => simp only [StLoop]
  | cons p rest ih =>
    obtain ⟨f, fv⟩ := p
    have ih2 := ih (fun w hw => hk w (kids_struct_cons _ _ w hw))
    rw [StLoop_cons, StLoop_cons]
    cases hu : unwrap fv with
    | none => simp only [ih2]
    | some v =>
      have hv := hk v (kids_struct_head f fv v rest hu)
      simp only [ih2, hv, StKey_congr js js2 ht]

theorem MapLoop_congr (js js2 : JSONStringify) (entries : List (String × Value))
    (hk : ∀ w ∈ kids (.map entries), ∀ key emb sb,
      do_ js key w emb sb = do_ js2 key w emb sb) (first : Bool) (sb : String) :
    MapLoop js entries first sb = MapLoop js2 entries first sb := by
  induction entries generalizing first sb with
  | nil => simp only [MapLoop]
  | cons p rest ih =>
    obtain ⟨k, mv⟩ := p
    have ih2 := ih (fun w hw => hk w (kids_map_cons _ _ w hw))
    rw [MapLoop_cons, MapLoop_cons]
    cases hu : unwrap mv with
    | none => simp only [ih2]
    | some v =>
      have hv := hk v (kids_map_head k mv v rest hu)
      simp only [ih2, hv]

theorem ArrayLoop_congr (js js2 : JSONStringify) (elems : List Value)
    (hk : ∀ w ∈ kids (.slice elems), ∀ key emb sb,
      do_ js key w emb sb = do_ js2 key w emb sb) (i : Nat) (first : Bool) (sb : String) :
    ArrayLoop js elems i first sb = ArrayLoop js2 elems i first sb := by
  induction elems generalizing i first sb with
  | nil => simp only [ArrayLoop]
  | cons ev rest ih =>
    have ih2 := ih (fun w hw => hk w (kids_slice_cons _ _ w hw))
    rw [ArrayLoop_cons, ArrayLoop_cons]
    cases hu : unwrap ev with
    | none => simp only [ih2]
    | some v =>
      have hv := hk v (kids_slice_head ev v rest hu)
      simp only [ih2, hv]

theorem doElem_congr (js js2 : JSONStringify) (ht : js.TagName = js2.TagName)
    (e : Value)
    (hk : ∀ w ∈ kids e, ∀ key emb sb, do_ js key w emb sb = do_ js2 key w emb sb)
    (emb : Bool) (sb : String) : doElem js e emb sb = doElem js2 e emb sb := by
  cases e <;> simp only [doElem]
  case struct fields => simp only [StLoop_congr js js2 ht fields hk]
  case map entries => simp only [MapLoop_congr js js2 entries hk]
  case slice elems => simp only [ArrayLoop_congr js js2 elems hk]
  case array elems => simp only [ArrayLoop_congr js js2 elems hk]

theorem do_congr (js js2 : JSONStringify) (ht : js.TagName = js2.TagName)
    (hr : js.Replacer = js2.Replacer) (s : Value) :
    ∀ key emb sb, do_ js key s emb sb = do_ js2 key s emb sb := by
  induction s using Value.strong with
  | h v ih =>
    intro key emb sb
    have hkids : ∀ w ∈ kids v, ∀ key emb sb, do_ js key w emb sb = do_ js2 key w emb sb :=
      fun w hw => ih w (kids_size hw)
    cases v <;> simp only [do_, replaced_congr js js2 hr]
    case iface d => exact ih d (by simp) key emb sb
    case ptr e =>
      rw [doElem_congr js js2 ht e (fun w hw => ih w (by have := kids_size hw; simp; omega))]
    case struct fields => simp only [StLoop_congr js js2 ht fields hkids]
    case map entries => simp only [MapLoop_congr js js2 entries hkids]
    case slice elems => simp only [ArrayLoop_congr js js2 elems hkids]
    case array elems => simp only [ArrayLoop_congr js js2 elems hkids]

/-! ## The writer's buffer and the pool -/

theorem Pool.Get_tag (pool : Pool) (hp : ∀ w ∈ pool, w.TagName = "") :
    (Pool.Get pool).1.TagName = "" := by
  cases pool with
  | nil => rfl
  | cons w rest => exact hp w (List.mem_cons_self _ _)

theorem String_method_fst (js : JSONStringify) (v : Value) :
    (js.String_ v).map (fun r => r.1) = (do_ js "" v false "").map (fun out => js.Sb ++ out) := by
  simp only [JSONStringify.String_]
  rw [do_append]
  cases do_ js "" v false "" <;> rfl

theorem String_method_buffer (js : JSONStringify) (v : Value) :
    (js.String_ v).map (fun r => r.2.Sb) = (js.String_ v).map (fun r => r.1) := by
  simp only [JSONStringify.String_]
  cases do_ js "" v false js.Sb <;> rfl

/-- C13, as amended: the method `String` does not reset the buffer; it returns the content
the writer's buffer had before the call followed by the document of `v`, which is the text
of the entry point `String(v, js.Replacer)` behind that content, and leaves that whole text
in the buffer; for a writer whose buffer is empty the two texts are the same. -/
theorem instance_render_appends (js : JSONStringify) (v : Value) (pool : Pool)
    (hjs : js.TagName = "") (hp : ∀ w ∈ pool, w.TagName = "") :
    (js.String_ v).map (fun r => r.1) =
      (String_ pool v js.Replacer).1.map (fun out => js.Sb ++ out) ∧
    (js.String_ v).map (fun r => r.2.Sb) =
      (String_ pool v js.Replacer).1.map (fun out => js.Sb ++ out) ∧
    (js.Sb = "" → (js.String_ v).map (fun r => r.1) = (String_ pool v js.Replacer).1) := by
  have h : (js.String_ v).map (fun r => r.1) =
      (String_ pool v js.Replacer).1.map (fun out => js.Sb ++ out) := by
    rw [String_method_fst, String_fst,
      do_congr js (entryWriter pool js.Replacer) (by rw [hjs]; exact (Pool.Get_tag pool hp).symm)
        rfl v]
  refine ⟨h, by rw [String_method_buffer, h], fun he => ?_⟩
  rw [h, he]
  cases (String_ pool v js.Replacer).1 <;> simp

/-- The amended theorem at a writer that has rendered `1` before and renders `2`. -/
theorem instance_render_appends_witness :
    (⟨"1", "", none⟩ : JSONStringify).TagName = "" ∧
    (∀ w ∈ ([] : Pool), w.TagName = "") ∧
    (JSONStringify.String_ ⟨"1", "", none⟩ (.int 2)).map (fun r => r.1) = some "12" :=
  ⟨rfl, by simp,
    ((instance_render_appends ⟨"1", "", none⟩ (.int 2) [] rfl (by simp)).1).trans (by decide)⟩

/-- C13, the claim as stated fails: a new writer that renders `1` and then `2` returns `12`
for the second call, while the entry point returns `2`. -/
theorem instance_render_counterexample :
    (JSONStringify.String_ New (.int 1)).map (fun r => r.1) = some "1" ∧
    ((JSONStringify.String_ New (.int 1)).bind fun r =>
      (JSONStringify.String_ r.2 (.int 2)).map (fun r => r.1)) = some "12" ∧
    (String_ [] (.int 2) New.Replacer).1 = some "2" := by
  refine ⟨by decide, by decide, by decide⟩

/-- C14: the text the entry point `String` returns does not depend on the writer the pool
hands out: for every pool of writers (any buffer content, any Replacer left behind; their
tag identifier is the default one, which no code changes) it is the text a new writer
with an empty buffer and the Replacer `r` returns, and the text `String` returns on an
empty pool; the writers it puts back keep the default tag identifier, so a call without
Replacer after a call with one returns what it returns on an empty pool. -/
theorem pool_state_irrelevant (pool : Pool) (v : Value) (r : Option Replacer)
    (hp : ∀ w ∈ pool, w.TagName = "") :
    (String_ pool v r).1 = (JSONStringify.String_ { New with Replacer := r } v).map
      (fun res => res.1) ∧
    (String_ pool v r).1 = (String_ [] v r).1 ∧
    (∀ w ∈ (String_ pool v r).2, w.TagName = "") ∧
    (∀ v2 : Value, (String_ (String_ pool v r).2 v2 none).1 = (String_ [] v2 none).1) := by
  have hfresh : ∀ (q : Pool), (∀ w ∈ q, w.TagName = "") → ∀ (x : Value) (r : Option Replacer),
      (String_ q x r).1 = (String_ [] x r).1 := by
    intro q hq x r
    rw [String_fst, String_fst]
    exact do_congr (entryWriter q r) (entryWriter [] r) (Pool.Get_tag q hq) rfl x "" false ""
  have hkeep : ∀ w ∈ (String_ pool v r).2, w.TagName = "" := by
    intro w hw
    unfold String_ JSONStringify.String_ at hw
    cases pool with
    | nil =>
      simp only [Pool.Get] at hw
      cases hd : do_ { New with Sb := "", Replacer := r } "" v false "" with
      | none => simp [hd] at hw
      | some out =>
        simp only [hd, List.mem_singleton] at hw
        subst hw; rfl
    | cons js rest =>
      simp only [Pool.Get] at hw
      cases hd : do_ { js with Sb := "", Replacer := r } "" v false "" with
      | none =>
        simp only [hd] at hw
        exact hp w (List.mem_cons_of_mem _ hw)
      | some out =>
        simp only [hd, List.mem_cons] at hw
        rcases hw with rfl | hw
        · exact hp js (List.mem_cons_self _ _)
        · exact hp w (List.mem_cons_of_mem _ hw)
  refine ⟨?_, hfresh pool hp v r, hkeep, fun v2 => hfresh _ hkeep v2 none⟩
  rw [String_method_fst, String_fst]
  rw [do_congr (entryWriter pool r) { New with Replacer := r } (Pool.Get_tag pool hp) rfl v]
  cases do_ { New with Replacer := r } "" v false "" <;> simp [New]

/-- The pool theorem at a pool whose writer holds a text and the test's Replacer. -/
theorem pool_state_irrelevant_witness :
    (∀ w ∈ ([⟨"left over", "", some replacer⟩] : Pool), w.TagName = "") ∧
    (String_ [⟨"left over", "", some replacer⟩] (.struct (secretRecord "pwd" "none")) none).1 =
      some "\x7b\"password\":\"pwd\"\x7d" :=
  ⟨by simp,
    ((pool_state_irrelevant [⟨"left over", "", some replacer⟩]
      (.struct (secretRecord "pwd" "none")) none (by simp)).2.1).trans (by decide)⟩

/-! ## The tag identifier -/

/-- C17: the tag that decides key, skip and omit-if-empty of a field is the one stored
under the writer's tag identifier, `json` when `TagName` is empty: the decision of `St`
is the same for two fields that agree on name and on that tag, whatever their other tags;
with a non-empty `TagName` under which the field has no tag, the field is written under
its declared name, also when it carries `json:"-"`. -/
theorem tag_identifier_selects (js : JSONStringify) (field : StructField) (value : Value) :
    (js.TagName = "" → StKey js field value = StKey { js with TagName := "json" } field value) ∧
    (∀ field2 : StructField, field2.Name = field.Name →
      field2.Tag.Get (if js.TagName = "" then "json" else js.TagName) =
        field.Tag.Get (if js.TagName = "" then "json" else js.TagName) →
      StKey js field2 value = StKey js field value) ∧
    (js.TagName ≠ "" → field.Tag.Get js.TagName = "" →
      StKey js field value = some field.Name) ∧
    (js.TagName ≠ "" → field.Tag.Get js.TagName = "" → field.PkgPath = "" →
      ∀ fv rest first sb, unwrap fv = some value →
        StLoop js ((field, fv) :: rest) first sb =
          (do_ js field.Name value field.Anonymous (StLead field first field.Name sb)).bind
            fun sb => StLoop js rest false sb) ∧
    do_ ⟨"", "yaml", none⟩ "" (.struct [(twoTagField, .str "none")]) false "" =
      some "\x7b\"hidden\":\"none\"\x7d" ∧
    do_ ⟨"", "", none⟩ "" (.struct [(twoTagField, .str "none")]) false "" = some "\x7b\x7d" ∧
    do_ ⟨"", "xml", none⟩ "" (.struct [(twoTagField, .str "none")]) false "" =
      some "\x7b\"Secret\":\"none\"\x7d" ∧
    do_ ⟨"", "yaml", none⟩ "" (.struct [(twoTagField, .str "")]) false "" = some "\x7b\x7d" := by
  have hname : js.TagName ≠ "" → field.Tag.Get js.TagName = "" →
      StKey js field value = some field.Name := by
    intro h1 h2
    rw [StKey_eq]
    have ha : activeTag js field = "" := by simp [activeTag, h1, h2]
    simp [ha, omitExcluded, outputKey, Contains, containsChars]
  refine ⟨?_, ?_, hname, ?_, by decide, by decide, by decide, by decide⟩
  · intro h
    simp [StKey, h, defaultTagName]
  · intro field2 hn ht
    rw [StKey_eq, StKey_eq]
    simp only [activeTag, omitExcluded, outputKey, ht, hn]
  · intro h1 h2 hp fv rest first sb hu
    rw [StLoop_cons, hu]
    simp only [hp, bne_self_eq_false, Bool.false_eq_true, if_false, hname h1 h2]

/-! ## Keys -/

/-- C20: keys are written as they are: for an emitted field with key `k` the loop of `St`
writes the comma, a double quote, `k` and `":` before the value, and so does the loop of
`Map` for an entry with key `k`; no escaping is applied, so a key with a double quote
appears unchanged while the same text as a value is escaped. -/
theorem keys_verbatim (js : JSONStringify) (k : String) (value : Value) :
    (∀ field fv rest first sb, field.Anonymous = false → field.PkgPath = "" →
      unwrap fv = some value → StKey js field value = some k →
      StLoop js ((field, fv) :: rest) first sb =
        (do_ js k value false (sb ++ (if first then "" else ",") ++ "\"" ++ k ++ "\":")).bind
          fun sb => StLoop js rest false sb) ∧
    (∀ mv rest first sb, unwrap mv = some value →
      MapLoop js ((k, mv) :: rest) first sb =
        (do_ js k value false (sb ++ (if first then "" else ",") ++ "\"" ++ k ++ "\":")).bind
          fun sb => MapLoop js rest false sb) ∧
    (String_ [] (.map [("a\"b", .str "a\"b")]) none).1 = some "\x7b\"a\"b\":\"a\\\"b\"\x7d" ∧
    (String_ [] (.struct [(jsonField "X" "a\"b", .str "a\"b")]) none).1 =
      some "\x7b\"a\"b\":\"a\\\"b\"\x7d" := by
  refine ⟨?_, ?_, by decide, by decide⟩
  · intro field fv rest first sb ha hp hu hk
    rw [StLoop_cons, hu]
    simp only [hp, bne_self_eq_false, Bool.false_eq_true, if_false, hk, ha]
    cases first <;> simp [-String.reduceAppend, StLead, ha, String.append_assoc]
  · intro mv rest first sb hu
    rw [MapLoop_cons, hu]
    cases first <;> simp [-String.reduceAppend, MapLead, String.append_assoc]

/-! ## The Replacer and the default rendering -/

theorem doSwitch_iface (js : JSONStringify) (d : Value) (emb : Bool) (sb : String) :
    doSwitch js (.iface d) emb sb = doSwitch js d emb sb := by
  simp only [doSwitch, Value.Interface]

theorem do_eq (js : JSONStringify) (key : String) (emb : Bool) (sb : String) :
    ∀ s : Value, do_ js key s emb sb =
      handledOr (js.replaced key s.Interface) sb (doSwitch js s emb sb)
  | .iface d => by
    rw [doSwitch_iface]
    simp only [do_, Value.Interface]
    exact do_eq js key emb sb d
  | .nilIface | .nilPtr | .ptr _ | .str _ | .namedStr _ | .int _ | .byte _
  | .bool _ | .other _ _ | .struct _ | .nilMap | .map _ | .nilSlice
  | .slice _ | .array _ => by
    simp only [do_, doSwitch, doElem, Value.Interface]

/-- C18: a Replacer is consulted for every element of a sequence that is not an empty
pointer, with the decimal form of the element's position in the input sequence as key
and the element's value (a pointer followed once) as value: the default rendering of a
sequence is the bracketed comma join of the elements' texts, each the Replacer's literal
when the Replacer handles that pair and the rendering by kind otherwise; with a Replacer
that handles key `2`, the sequence `["a", nil, "b"]` gives `["a","third"]`. -/
theorem replacer_on_elements (js : JSONStringify) (elems : List Value) (key : String)
    (emb : Bool) (sb : String) :
    (∀ s, s = Value.slice elems ∨ s = Value.array elems ∨ s = Value.ptr (.slice elems) ∨
        s = Value.ptr (.array elems) →
      doSwitch js s emb sb =
        (allTexts ((presentFrom 0 elems).map fun p =>
          handledOr (js.replaced (toString p.1) p.2.Interface) ""
            (doSwitch js p.2 false ""))).map
          (fun parts => sb ++ "[" ++ ",".intercalate parts ++ "]")) ∧
    (∀ s, do_ js key s emb sb =
      handledOr (js.replaced key s.Interface) sb (doSwitch js s emb sb)) ∧
    presentFrom 0 [.ptr (.str "a"), .nilPtr, .ptr (.str "b")] =
      [(0, .str "a"), (2, .str "b")] ∧
    (String_ [] (.slice [.ptr (.str "a"), .nilPtr, .ptr (.str "b")]) (some indexReplacer)).1 =
      some "[\"a\",\"third\"]" := by
  refine ⟨fun s hs => ?_, fun s => do_eq js key emb sb s, rfl, by decide⟩
  have hel : (fun p : Nat × Value => handledOr (js.replaced (toString p.1) p.2.Interface) ""
      (doSwitch js p.2 false "")) = elemText js := by
    funext p
    simp only [elemText, do_eq]
  rw [hel, ← Array_flat]
  rcases hs with rfl | rfl | rfl | rfl <;>
    simp only [doSwitch, doElem, Value.Interface, JSONStringify.Array]

/-! ## An embedded sub-record declared first -/

theorem do_embedded (js : JSONStringify) (key : String)
    (fields : List (StructField × Value)) (sb : String)
    (hrep : js.replaced key (.struct fields) = none) :
    do_ js key (.struct fields) true sb = StLoop js fields true sb := by
  simp only [do_, hrep, handledOr, StFrame]
  cases h : StLoop js fields true sb <;> simp [h]

theorem StLoop_embedded_first (js : JSONStringify) (fa : StructField) (sv : Value)
    (ka : String) (inner rest : List (StructField × Value)) (hfa : fa.Anonymous = true)
    (hea : emittedField js (fa, sv) = some (ka, .struct inner))
    (hrep : js.replaced ka (.struct inner) = none)
    (hne : (emittedFields js inner).isEmpty = false) (sb : String) :
    StLoop js ((fa, sv) :: rest) true sb = StLoop js (inner ++ rest) true sb := by
  rw [StLoop_cons_emitted, hea, StLoop_append]
  simp only [hfa, StLead, Bool.not_true, Bool.false_eq_true, if_false, hne, Bool.and_false]
  rw [do_embedded js ka inner sb hrep]

/-- C19: when the first field of a record is an anonymous sub-record that is emitted and
emits at least one field of its own, and the Replacer is absent or does not handle the
anonymous field, the record renders as the record in which the anonymous field is replaced
by the sub-record's fields: `St` gives the same result for both, and so does `do` whenever
the Replacer answers alike on the two records; the data of `TestString` is of that shape
and renders as its flattening does. -/
theorem embedded_first_flattened (js : JSONStringify) (fa : StructField) (sv : Value)
    (ka : String) (inner rest : List (StructField × Value)) (hfa : fa.Anonymous = true)
    (hea : emittedField js (fa, sv) = some (ka, .struct inner))
    (hrep : js.replaced ka (.struct inner) = none)
    (hne : (emittedFields js inner).isEmpty = false) (emb : Bool) (sb : String) :
    js.St ((fa, sv) :: rest) emb sb = js.St (inner ++ rest) emb sb ∧
    (∀ key, js.replaced key (.struct ((fa, sv) :: rest)) =
        js.replaced key (.struct (inner ++ rest)) →
      do_ js key (.struct ((fa, sv) :: rest)) emb sb =
        do_ js key (.struct (inner ++ rest)) emb sb) ∧
    getTestData = .ptr (.struct ((otherField, .struct jamesFields) :: meOwnFields)) ∧
    (String_ [] (.struct (jamesFields ++ meOwnFields)) (some replacer)).1 = some testOutput := by
  have hst : js.St ((fa, sv) :: rest) emb sb = js.St (inner ++ rest) emb sb := by
    simp only [JSONStringify.St, StFrame,
      StLoop_embedded_first js fa sv ka inner rest hfa hea hrep hne]
  refine ⟨hst, fun key hk => ?_, rfl, by decide⟩
  rw [do_struct_St, do_struct_St, hk, hst]

/-- The flattening theorem at the data of `TestString` and the test's Replacer. -/
theorem embedded_first_flattened_witness :
    otherField.Anonymous = true ∧
    (emittedFields ⟨"", "", some replacer⟩ jamesFields).isEmpty = false ∧
    JSONStringify.St ⟨"", "", some replacer⟩ ((otherField, .struct jamesFields) :: meOwnFields)
        false "" = some testOutput :=
  ⟨rfl, by decide,
    ((embedded_first_flattened ⟨"", "", some replacer⟩ otherField (.struct jamesFields) "Other"
      jamesFields meOwnFields rfl rfl (by decide) (by decide) false "").1).trans (by decide)⟩

/-! ## Balanced output -/

theorem scanBrackets_append (a b st : List Char) :
    scanBrackets (a ++ b) st = (scanBrackets a st).bind (scanBrackets b) := by
  induction a generalizing st with
  | nil => simp [scanBrackets]
  | cons c cs ih =>
    simp only [List.cons_append, scanBrackets]
    split
    · exact ih _
    · split
      · exact ih _
      · split
        · cases st with
          | nil => simp
          | cons top st =>
            simp only
            split
            · exact ih _
            · simp
        · exact ih _

theorem scanBrackets_free (a : List Char) (h : a.all (fun c => !isBracket c) = true)
    (st : List Char) : scanBrackets a st = some st := by
  induction a with
  | nil => rfl
  | cons c cs ih =>
    simp only [List.all_cons, Bool.and_eq_true, Bool.not_eq_true', isBracket, Bool.or_eq_false_iff,
      beq_eq_false_iff_ne, ne_eq] at h
    obtain ⟨⟨⟨⟨h1, h2⟩, h3⟩, h4⟩, hcs⟩ := h
    simp only [scanBrackets, h1, h2, h3, h4, if_false, or_self]
    exact ih hcs

theorem count_free (a : List Char) (h : a.all (fun c => !isBracket c) = true) (b : Char)
    (hb : isBracket b = true) : a.count b = 0 := by
  rw [List.count_eq_zero]
  intro hmem
  have := List.all_eq_true.1 h b hmem
  simp [hb] at this

theorem Bal.empty : Bal "" := by
  refine ⟨fun st => rfl, rfl, rfl⟩

theorem Bal.append {a b : String} (ha : Bal a) (hb : Bal b) : Bal (a ++ b) := by
  obtain ⟨ha1, ha2, ha3⟩ := ha
  obtain ⟨hb1, hb2, hb3⟩ := hb
  refine ⟨fun st => ?_, ?_, ?_⟩
  · rw [String.data_append, scanBrackets_append, ha1]
    exact hb1 st
  · rw [String.data_append, List.count_append, List.count_append, ha2, hb2]
  · rw [String.data_append, List.count_append, List.count_append, ha3, hb3]

theorem Bal.of_free {t : String} (h : bracketFree t = true) : Bal t := by
  refine ⟨scanBrackets_free _ h, ?_, ?_⟩
  · rw [count_free _ h _ (by decide), count_free _ h _ (by decide)]
  · rw [count_free _ h _ (by decide), count_free _ h _ (by decide)]

theorem Bal.braces {t : String} (h : Bal t) : Bal ("\x7b" ++ t ++ "\x7d") := by
  obtain ⟨h1, h2, h3⟩ := h
  refine ⟨fun st => ?_, ?_, ?_⟩
  · simp only [String.data_append]
    show scanBrackets ('{' :: (t.data ++ ['}'])) st = some st
    simp [scanBrackets, scanBrackets_append, h1]
  · simp only [String.data_append]
    show List.count '{' ('{' :: (t.data ++ ['}'])) = List.count '}' ('{' :: (t.data ++ ['}']))
    simp [List.count_cons, List.count_append, h2]
  · simp only [String.data_append]
    show List.count '[' ('{' :: (t.data ++ ['}'])) = List.count ']' ('{' :: (t.data ++ ['}']))
    simp [List.count_cons, List.count_append, h3]

theorem Bal.brackets {t : String} (h : Bal t) : Bal ("[" ++ t ++ "]") := by
  obtain ⟨h1, h2, h3⟩ := h
  refine ⟨fun st => ?_, ?_, ?_⟩
  · simp only [String.data_append]
    show scanBrackets ('[' :: (t.data ++ [']'])) st = some st
    simp [scanBrackets, scanBrackets_append, h1]
  · simp only [String.data_append]
    show List.count '{' ('[' :: (t.data ++ [']'])) = List.count '}' ('[' :: (t.data ++ [']']))
    simp [List.count_cons, List.count_append, h2]
  · simp only [String.data_append]
    show List.count '[' ('[' :: (t.data ++ [']'])) = List.count ']' ('[' :: (t.data ++ [']']))
    simp [List.count_cons, List.count_append, h3]

theorem Bal.wellNested {t : String} (h : Bal t) : WellNested t = true := by
  simp [WellNested, h.1 []]

theorem digitChar_isDigit (m : Nat) (h : m < 10) : (Nat.digitChar m).isDigit = true := by
  interval_cases m <;> decide

theorem toDigitsCore_digits (f : Nat) : ∀ (n : Nat) (ds : List Char),
    (∀ c ∈ ds, c.isDigit = true) → ∀ c ∈ Nat.toDigitsCore 10 f n ds, c.isDigit = true := by
  induction f with
  | zero => intro n ds h; simpa [Nat.toDigitsCore] using h
  | succ f ih =>
    intro n ds h
    have hd : ∀ c ∈ Nat.digitChar (n % 10) :: ds, c.isDigit = true := by
      intro c hc
      rcases List.mem_cons.1 hc with rfl | hc
      · exact digitChar_isDigit _ (Nat.mod_lt _ (by decide))
      · exact h c hc
    simp only [Nat.toDigitsCore]
    split
    · exact hd
    · exact ih _ _ hd

theorem Nat_repr_digits (n : Nat) : ∀ c ∈ (Nat.repr n).data, c.isDigit = true := by
  simp only [Nat.repr, Nat.toDigits, List.asString]
  exact toDigitsCore_digits _ _ _ (by simp)

theorem Int_toString_chars (i : Int) :
    ∀ c ∈ (toString i).data, c.isDigit = true ∨ c = '-' := by
  intro c hc
  cases i with
  | ofNat n => exact Or.inl (Nat_repr_digits n c hc)
  | negSucc n =>
    have : toString (Int.negSucc n) = "-" ++ Nat.repr (n + 1) := rfl
    rw [this, String.data_append] at hc
    rcases List.mem_append.1 hc with h | h
    · right; simpa using h
    · exact Or.inl (Nat_repr_digits _ c h)


theorem isDigit_not_bracket (c : Char) (h : c.isDigit = true) : isBracket c = false := by
  simp only [isBracket, Bool.or_eq_false_iff, beq_eq_false_iff_ne, ne_eq]
  refine ⟨⟨⟨?_, ?_⟩, ?_⟩, ?_⟩ <;> (intro hc; subst hc; revert h; decide)

theorem bracketFree_int (i : Int) : bracketFree (toString i) = true := by
  simp only [bracketFree, List.all_eq_true, Bool.not_eq_true']
  intro c hc
  rcases Int_toString_chars i c hc with h | h
  · exact isDigit_not_bracket c h
  · subst h; decide

theorem bracketFree_bool (b : Bool) : bracketFree (toString b) = true := by
  cases b <;> decide

theorem bracketFree_append (a b : String) :
    bracketFree (a ++ b) = (bracketFree a && bracketFree b) := by
  simp only [bracketFree, String.data_append, List.all_append]

theorem escapeChars_free (cs : List Char) (h : cs.all (fun c => !isBracket c) = true) :
    (escapeChars cs).all (fun c => !isBracket c) = true := by
  induction cs with
  | nil => rfl
  | cons c cs ih =>
    simp only [List.all_cons, Bool.and_eq_true] at h
    simp only [escapeChars]
    split
    · simp only [List.all_cons, ih h.2, Bool.and_true]; decide
    · simp only [List.all_cons, ih h.2, h.1, Bool.and_true]

theorem bracketFree_quoted (t : String) (h : bracketFree t = true) :
    bracketFree ("\"" ++ Replace t "\"" "\\\"" ++ "\"") = true := by
  rw [Replace_quote, bracketFree_append, bracketFree_append]
  have h2 : bracketFree (quoteEscaped t) = true := escapeChars_free _ h
  rw [h2]; decide

theorem castToString_free (v : Value) : Clean v = true → bracketFree (castToString v) = true := by
  induction v using Value.strong with
  | h v ih =>
    intro hc
    cases v <;> simp only [castToString]
    case int i => exact bracketFree_int i
    case byte b => exact bracketFree_int (Int.ofNat b)
    case bool b => exact bracketFree_bool b
    case other t z => simpa only [Clean] using hc
    case str s => simpa only [Clean] using hc
    case namedStr s => simpa only [Clean] using hc
    case slice elems =>
      simp only [Clean, castToString, Bool.and_eq_true] at hc
      exact hc.2
    case ptr e => exact ih e (by simp) (by simpa only [Clean] using hc)
    case iface d => exact ih d (by simp) (by simpa only [Clean] using hc)
    all_goals decide

theorem takeWhile_free (p : Char → Bool) (cs : List Char)
    (h : cs.all (fun c => !isBracket c) = true) :
    (cs.takeWhile p).all (fun c => !isBracket c) = true := by
  rw [List.all_eq_true] at h ⊢
  intro c hc
  exact h c (List.takeWhile_subset p hc)

theorem Tag_Get_free (tag : StructTag) (h : tag.all (fun p => bracketFree p.2) = true)
    (name : String) : bracketFree (tag.Get name) = true := by
  simp only [StructTag.Get]
  cases hf : tag.find? (fun p => p.1 == name) with
  | none => decide
  | some p =>
    simp only
    exact List.all_eq_true.1 h p (List.mem_of_find?_eq_some hf)

theorem outputKey_free (js : JSONStringify) (field : StructField)
    (h : fieldClean field = true) : bracketFree (outputKey js field) = true := by
  simp only [fieldClean, Bool.and_eq_true] at h
  simp only [outputKey]
  split
  · exact h.1
  · exact takeWhile_free _ _ (Tag_Get_free field.Tag h.2 _)

theorem StKey_free (js : JSONStringify) (field : StructField) (value : Value) (key : String)
    (h : fieldClean field = true) (hk : StKey js field value = some key) :
    bracketFree key = true := by
  rw [StKey_eq] at hk
  split at hk
  · cases hk; exact outputKey_free js field h
  · cases hk

theorem cleanFields_mem (fields : List (StructField × Value)) (h : cleanFields fields = true)
    (p : StructField × Value) (hp : p ∈ fields) : fieldClean p.1 = true ∧ Clean p.2 = true := by
  induction fields with
  | nil => cases hp
  | cons q rest ih =>
    obtain ⟨f, v⟩ := q
    simp only [cleanFields, Bool.and_eq_true] at h
    rcases List.mem_cons.1 hp with rfl | hp
    · exact h.1
    · exact ih h.2 hp

theorem cleanEntries_mem (entries : List (String × Value)) (h : cleanEntries entries = true)
    (p : String × Value) (hp : p ∈ entries) : bracketFree p.1 = true ∧ Clean p.2 = true := by
  induction entries with
  | nil => cases hp
  | cons q rest ih =>
    obtain ⟨k, v⟩ := q
    simp only [cleanEntries, Bool.and_eq_true] at h
    rcases List.mem_cons.1 hp with rfl | hp
    · exact h.1
    · exact ih h.2 hp

theorem cleanElems_mem (elems : List Value) (h : cleanElems elems = true)
    (v : Value) (hv : v ∈ elems) : Clean v = true := by
  induction elems with
  | nil => cases hv
  | cons q rest ih =>
    simp only [cleanElems, Bool.and_eq_true] at h
    rcases List.mem_cons.1 hv with rfl | hv
    · exact h.1
    · exact ih h.2 hv

theorem Clean_unwrap {fv w : Value} (h : Clean fv = true) (hu : unwrap fv = some w) :
    Clean w = true := by
  cases fv <;> simp only [unwrap, Option.some.injEq, reduceCtorEq] at hu <;> subst hu
  case ptr e => simpa only [Clean] using h
  all_goals exact h

theorem Clean_kids {v w : Value} (h : Clean v = true) (hw : w ∈ kids v) : Clean w = true := by
  cases v <;> simp only [kids, List.mem_filterMap, List.not_mem_nil] at hw
  case struct fields =>
    obtain ⟨p, hp, hu⟩ := hw
    exact Clean_unwrap (cleanFields_mem fields (by simpa only [Clean] using h) p hp).2 hu
  case map entries =>
    obtain ⟨p, hp, hu⟩ := hw
    exact Clean_unwrap (cleanEntries_mem entries (by simpa only [Clean] using h) p hp).2 hu
  case slice elems =>
    obtain ⟨p, hp, hu⟩ := hw
    simp only [Clean, Bool.and_eq_true] at h
    exact Clean_unwrap (cleanElems_mem elems h.1 p hp) hu
  case array elems =>
    obtain ⟨p, hp, hu⟩ := hw
    exact Clean_unwrap (cleanElems_mem elems (by simpa only [Clean] using h) p hp) hu

theorem balOut_write {t : String} (ht : Bal t) : BalOut (fun sb => some (sb ++ t)) := by
  intro sb out h
  cases h
  exact ⟨t, rfl, ht⟩

theorem balOut_fail : BalOut (fun _ => none) := by
  intro sb out h; cases h

theorem balOut_pure : BalOut (fun sb => some sb) := by
  intro sb out h
  cases h
  exact ⟨"", by simp, Bal.empty⟩

theorem balOut_bind {f g : String → Option String} (hf : BalOut f) (hg : BalOut g) :
    BalOut (fun sb => (f sb).bind g) := by
  intro sb out h
  obtain ⟨m, hm, h⟩ := Option.bind_eq_some.1 h
  obtain ⟨t, rfl, ht⟩ := hf sb m hm
  obtain ⟨u, rfl, hu⟩ := hg _ out h
  exact ⟨t ++ u, by simp [String.append_assoc], ht.append hu⟩

theorem balOut_comp_write {f : String → Option String} (hf : BalOut f) (w : String → String)
    (hw : ∀ sb, w sb = sb ++ w "") (hb : Bal (w "")) : BalOut (fun sb => f (w sb)) := by
  intro sb out h
  obtain ⟨t, rfl, ht⟩ := hf _ out h
  exact ⟨w "" ++ t, by rw [hw sb, String.append_assoc], hb.append ht⟩

theorem balOut_wrap {loop : String → Option String} (h : BalOut loop) (l r : String)
    (hlr : ∀ t, Bal t → Bal (l ++ t ++ r)) :
    BalOut (fun sb => (loop (sb ++ l)).bind fun sb => some (sb ++ r)) := by
  intro sb out ho
  obtain ⟨m, hm, ho⟩ := Option.bind_eq_some.1 ho
  obtain ⟨t, rfl, ht⟩ := h _ m hm
  cases ho
  exact ⟨l ++ t ++ r, by simp [String.append_assoc], hlr t ht⟩

theorem balOut_StFrame (embedded : Bool) {loop : String → Option String} (h : BalOut loop) :
    BalOut (Stringify.StFrame embedded loop) := by
  cases embedded with
  | true =>
    have : Stringify.StFrame true loop = fun sb => (loop sb).bind fun sb => some sb := by
      funext sb; simp [Stringify.StFrame]
    rw [this]; exact balOut_bind h balOut_pure
  | false =>
    have : Stringify.StFrame false loop =
        fun sb => (loop (sb ++ "\x7b")).bind fun sb => some (sb ++ "\x7d") := by
      funext sb; simp [Stringify.StFrame]
    rw [this]
    exact balOut_wrap h "\x7b" "\x7d" (fun t ht => ht.braces)

theorem Bal_StLead (field : StructField) (first : Bool) (key : String)
    (hk : bracketFree key = true) : Bal (StLead field first key "") := by
  apply Bal.of_free
  cases hA : field.Anonymous <;> cases first <;>
    simp only [StLead, hA, Bool.not_true, Bool.not_false, Bool.false_eq_true, if_true, if_false,
      bracketFree_append, hk] <;> decide

theorem Bal_MapLead (first : Bool) (key : String) (hk : bracketFree key = true) :
    Bal (MapLead first key "") := by
  apply Bal.of_free
  cases first <;>
    simp only [MapLead, Bool.not_true, Bool.not_false, Bool.false_eq_true, if_true, if_false,
      bracketFree_append, hk] <;> decide

theorem Bal_ArrayLead (first : Bool) : Bal (ArrayLead first "") := by
  apply Bal.of_free
  cases first <;> decide

theorem StLoop_balOut (js : JSONStringify) (fields : List (StructField × Value))
    (hc : cleanFields fields = true)
    (hk : ∀ w ∈ kids (.struct fields), ∀ key emb, BalOut (fun sb => do_ js key w emb sb))
    (first : Bool) : BalOut (fun sb => StLoop js fields first sb) := by
  induction fields generalizing first with
  | nil => simp only [StLoop]; exact balOut_pure
  | cons p rest ih =>
    obtain ⟨f, fv⟩ := p
    simp only [cleanFields, Bool.and_eq_true] at hc
    have ih2 := ih hc.2 (fun w hw => hk w (kids_struct_cons _ _ w hw))
    simp only [StLoop_cons]
    by_cases hp : (f.PkgPath != "") = true
    · simp only [hp, if_true]; exact ih2 first
    · simp only [hp, if_false]
      cases hu : unwrap fv with
      | none => exact ih2 first
      | some v =>
        simp only
        cases hkey : StKey js f v with
        | none => exact ih2 first
        | some key =>
          exact balOut_bind
            (balOut_comp_write (hk v (kids_struct_head f fv v rest hu) key _)
              (StLead f first key) (StLead_append f first key)
              (Bal_StLead f first key (StKey_free js f v key hc.1.1 hkey)))
            (ih2 false)

theorem MapLoop_balOut (js : JSONStringify) (entries : List (String × Value))
    (hc : cleanEntries entries = true)
    (hk : ∀ w ∈ kids (.map entries), ∀ key emb, BalOut (fun sb => do_ js key w emb sb))
    (first : Bool) : BalOut (fun sb => MapLoop js entries first sb) := by
  induction entries generalizing first with
  | nil => simp only [MapLoop]; exact balOut_pure
  | cons p rest ih =>
    obtain ⟨k, mv⟩ := p
    simp only [cleanEntries, Bool.and_eq_true] at hc
    have ih2 := ih hc.2 (fun w hw => hk w (kids_map_cons _ _ w hw))
    simp only [MapLoop_cons]
    cases hu : unwrap mv with
    | none => exact ih2 first
    | some v =>
      exact balOut_bind
        (balOut_comp_write (hk v (kids_map_head k mv v rest hu) k _)
          (MapLead first k) (MapLead_append first k) (Bal_MapLead first k hc.1.1))
        (ih2 false)

theorem ArrayLoop_balOut (js : JSONStringify) (elems : List Value)
    (hk : ∀ w ∈ kids (.slice elems), ∀ key emb, BalOut (fun sb => do_ js key w emb sb))
    (i : Nat) (first : Bool) : BalOut (fun sb => ArrayLoop js elems i first sb) := by
  induction elems generalizing i first with
  | nil => simp only [ArrayLoop]; exact balOut_pure
  | cons ev rest ih =>
    have ih2 := ih (fun w hw => hk w (kids_slice_cons _ _ w hw))
    simp only [ArrayLoop_cons]
    cases hu : unwrap ev with
    | none => exact ih2 (i + 1) first
    | some v =>
      exact balOut_bind
        (balOut_comp_write (hk v (kids_slice_head ev v rest hu) _ _)
          (ArrayLead first) (ArrayLead_append first) (Bal_ArrayLead first))
        (ih2 (i + 1) false)

theorem balOut_text {t : String} (h : bracketFree t = true) :
    BalOut (fun sb => some (sb ++ t)) := balOut_write (Bal.of_free h)

theorem Bal_emptyBraces : Bal ("\x7b" ++ "\x7d") := by
  have h := Bal.braces Bal.empty
  rwa [String.append_empty] at h

theorem Bal_emptyBrackets : Bal ("[" ++ "]") := by
  have h := Bal.brackets Bal.empty
  rwa [String.append_empty] at h

theorem doElem_balOut (js : JSONStringify) (e : Value) (hc : Clean e = true)
    (hk : ∀ w ∈ kids e, ∀ key emb, BalOut (fun sb => do_ js key w emb sb)) (emb : Bool) :
    BalOut (fun sb => doElem js e emb sb) := by
  cases e <;> simp only [doElem]
  case struct fields =>
    exact balOut_StFrame emb (StLoop_balOut js fields (by simpa only [Clean] using hc) hk true)
  case nilMap =>
    simp only [String.append_assoc]; exact balOut_write Bal_emptyBraces
  case map entries =>
    exact balOut_wrap (MapLoop_balOut js entries (by simpa only [Clean] using hc) hk true)
      "\x7b" "\x7d" (fun t ht => ht.braces)
  case nilSlice =>
    simp only [String.append_assoc]; exact balOut_write Bal_emptyBrackets
  case slice elems =>
    exact balOut_wrap (ArrayLoop_balOut js elems hk 0 true) "[" "]" (fun t ht => ht.brackets)
  case array elems =>
    exact balOut_wrap (ArrayLoop_balOut js elems hk 0 true) "[" "]" (fun t ht => ht.brackets)
  case str t =>
    simp only [writeQuoted, String.append_assoc]
    have := bracketFree_quoted t (by simpa only [Clean] using hc)
    simp only [String.append_assoc] at this
    exact balOut_text this
  case namedStr t => exact balOut_fail
  all_goals exact balOut_text (castToString_free _ hc)

theorem do_balOut (js : JSONStringify) (hr : js.Replacer = none) (v : Value) :
    Clean v = true → ∀ key emb, BalOut (fun sb => do_ js key v emb sb) := by
  induction v using Value.strong with
  | h v ih =>
    intro hc key emb
    have hrep : ∀ k x, js.replaced k x = none := fun k x => by
      simp [JSONStringify.replaced, hr]
    have hkids : ∀ w ∈ kids v, ∀ key emb, BalOut (fun sb => do_ js key w emb sb) :=
      fun w hw => ih w (kids_size hw) (Clean_kids hc hw)
    cases v
    case iface d =>
      simp only [do_]
      exact ih d (by simp) (by simpa only [Clean] using hc) key emb
    case nilIface => simp only [do_, hrep, handledOr]; exact balOut_fail
    case nilPtr => simp only [do_, hrep, handledOr]; exact balOut_fail
    case ptr e =>
      simp only [do_, hrep, handledOr]
      have hce : Clean e = true := by simpa only [Clean] using hc
      exact doElem_balOut js e hce
        (fun w hw => ih w (by have := kids_size hw; simp; omega) (Clean_kids hce hw)) emb
    all_goals
      have h := doElem_balOut js _ hc hkids emb
      simpa only [do_, doElem, hrep, handledOr] using h

/-- C15: for every value whose texts, scalar texts, byte slices and keys contain no brace
and no bracket, rendered with no Replacer, every completed call returns a well-nested
bracket string with as many opening as closing braces and as many opening as closing
brackets; this holds for `do` with either value of its flag and for the entry point
`String`. -/
theorem output_balanced (js : JSONStringify) (hr : js.Replacer = none) (v : Value)
    (hc : Clean v = true) (key : String) (emb : Bool) (out : String)
    (h : do_ js key v emb "" = some out) :
    WellNested out = true ∧
    out.data.count '{' = out.data.count '}' ∧ out.data.count '[' = out.data.count ']' ∧
    (∀ (pool : Pool) (res : String), (String_ pool v none).1 = some res →
      WellNested res = true ∧ res.data.count '{' = res.data.count '}' ∧
        res.data.count '[' = res.data.count ']') := by
  have key2 : ∀ (w : JSONStringify), w.Replacer = none → ∀ k e res,
      do_ w k v e "" = some res → WellNested res = true ∧
        res.data.count '{' = res.data.count '}' ∧ res.data.count '[' = res.data.count ']' := by
    intro w hw k e res hres
    obtain ⟨t, rfl, ht⟩ := do_balOut w hw v hc k e "" res hres
    rw [String.empty_append]
    exact ⟨ht.wellNested, ht.2.1, ht.2.2⟩
  obtain ⟨h1, h2, h3⟩ := key2 js hr key emb out h
  refine ⟨h1, h2, h3, fun pool res hres => ?_⟩
  rw [String_fst] at hres
  exact key2 (entryWriter pool none) rfl "" false res hres

/-- The balance theorem at the data of `TestString`, rendered with no Replacer. A byte
slice behind a pointer to an interface is written as its text: the bytes `ab` are clean,
the byte 123, an opening brace, is not, while the same slice met directly is written as the
sequence `[123]`. -/
theorem output_balanced_witness :
    Clean getTestData = true ∧
    do_ ⟨"", "", none⟩ "" getTestData false "" = some plainOutput ∧
    WellNested plainOutput = true ∧
    plainOutput.data.count '{' = 8 ∧ plainOutput.data.count '}' = 8 ∧
    plainOutput.data.count '[' = 2 ∧ plainOutput.data.count ']' = 2 ∧
    Clean (.ptr (.iface (.slice [.byte 97, .byte 98]))) = true ∧
    do_ ⟨"", "", none⟩ "" (.ptr (.iface (.slice [.byte 97, .byte 98]))) false "" = some "ab" ∧
    Clean (.ptr (.iface (.slice [.byte 123]))) = false ∧
    do_ ⟨"", "", none⟩ "" (.ptr (.iface (.slice [.byte 123]))) false "" = some "\x7b" ∧
    do_ ⟨"", "", none⟩ "" (.slice [.byte 123]) false "" = some "[123]" :=
  ⟨by decide, by decide,
    (output_balanced ⟨"", "", none⟩ rfl getTestData (by decide) "" false plainOutput
      (by decide)).1,
    by decide, by decide, by decide, by decide, by decide, by decide, by decide, by decide,
    by decide⟩

/-! ## JSON texts -/

theorem digitChar_nonzero (m : Nat) (h0 : 0 < m) (h : m < 10) :
    (Nat.digitChar m != '0') = true := by
  interval_cases m <;> decide

theorem toDigitsCore_lead (f : Nat) : ∀ (n : Nat) (ds : List Char), n < f → 0 < n →
    (∀ c ∈ ds, c.isDigit = true) →
    ∃ d rest, Nat.toDigitsCore 10 f n ds = d :: rest ∧ d.isDigit = true ∧
      (d != '0') = true ∧ ∀ c ∈ rest, c.isDigit = true := by
  induction f with
  | zero => intro n ds h; omega
  | succ f ih =>
    intro n ds hn h0 hds
    have hd : ∀ c ∈ Nat.digitChar (n % 10) :: ds, c.isDigit = true := by
      intro c hc
      rcases List.mem_cons.1 hc with rfl | hc
      · exact digitChar_isDigit _ (Nat.mod_lt _ (by decide))
      · exact hds c hc
    simp only [Nat.toDigitsCore]
    split
    · rename_i hz
      have hlt : n < 10 := by omega
      have hmod : n % 10 = n := Nat.mod_eq_of_lt hlt
      exact ⟨_, _, rfl, digitChar_isDigit _ (Nat.mod_lt _ (by decide)),
        by rw [hmod]; exact digitChar_nonzero n h0 hlt, hds⟩
    · rename_i hz
      exact ih (n / 10) _ (by omega) (by omega) hd

theorem isJSONNat_repr (n : Nat) : isJSONNat (Nat.repr n).data = true := by
  by_cases h0 : n = 0
  · subst h0; decide
  · obtain ⟨d, rest, he, hd, hnz, hrest⟩ :=
      toDigitsCore_lead (n + 1) n [] (by omega) (by omega) (by simp)
    have : (Nat.repr n).data = d :: rest := by
      simp only [Nat.repr, Nat.toDigits, List.asString]
      exact he
    rw [this]
    have hne : ¬ d = '0' := by simpa only [bne_iff_ne, ne_eq] using hnz
    have hdrop : rest.dropWhile Char.isDigit = [] :=
      List.dropWhile_eq_nil_iff.2 hrest
    simp only [isJSONNat, hne, if_false, hd, hdrop, isJSONFrac, Bool.and_self]

theorem Nat_repr_head (n : Nat) : ∃ d rest, (Nat.repr n).data = d :: rest ∧ d ≠ '-' := by
  have h := isJSONNat_repr n
  cases hd : (Nat.repr n).data with
  | nil => rw [hd] at h; cases h
  | cons d rest =>
    refine ⟨d, rest, rfl, ?_⟩
    intro hc
    subst hc
    have hdig := Nat_repr_digits n '-' (by rw [hd]; exact List.mem_cons_self _ _)
    revert hdig; decide

theorem isJSONNumber_nat (n : Nat) : isJSONNumber (Nat.repr n) = true := by
  obtain ⟨d, rest, hd, hne⟩ := Nat_repr_head n
  have h := isJSONNat_repr n
  simp only [isJSONNumber, hd, hne, if_false]
  rwa [hd] at h

theorem isJSONNumber_toString (i : Int) : isJSONNumber (toString i) = true := by
  cases i with
  | ofNat n =>
    have ht : toString (Int.ofNat n) = Nat.repr n := rfl
    rw [ht]
    exact isJSONNumber_nat n
  | negSucc n =>
    have ht : toString (Int.negSucc n) = "-" ++ Nat.repr (n + 1) := rfl
    rw [ht]
    simp only [isJSONNumber, String.data_append]
    show (if '-' = '-' then isJSONNat (Nat.repr (n + 1)).data else _) = true
    simp only [if_true]
    exact isJSONNat_repr (n + 1)

theorem decodeChars_plain (c : Char) (rest : List Char) (hq : ¬ c = '"') (h1 : ¬ c = '\\')
    (h2 : ¬ c.toNat < 32) :
    decodeChars (c :: rest) = (decodeChars rest).map fun cs => c :: cs := by
  rw [decodeChars.eq_def]
  simp only [hq, h1, h2, if_false]

theorem decodeChars_quote (rest : List Char) :
    decodeChars ('\\' :: '"' :: rest) = (decodeChars rest).map fun cs => '"' :: cs := by
  rw [decodeChars.eq_def]
  simp [escapeValue]

theorem decodeChars_escaped (cs : List Char)
    (h : cs.all (fun c => c != '\\' && !(c.toNat < 32)) = true) :
    decodeChars (escapeChars cs ++ ['"']) = some cs := by
  induction cs with
  | nil => decide
  | cons c cs ih =>
    simp only [List.all_cons, Bool.and_eq_true, bne_iff_ne, ne_eq, Bool.not_eq_true',
      decide_eq_false_iff_not] at h
    obtain ⟨⟨h1, h2⟩, hcs⟩ := h
    have ih2 := ih hcs
    by_cases hq : c = '"'
    · subst hq
      simp only [escapeChars, if_true, List.cons_append]
      rw [decodeChars_quote, ih2]; rfl
    · simp only [escapeChars, hq, if_false, List.cons_append]
      rw [decodeChars_plain c _ hq h1 h2, ih2]; rfl

theorem escapeChars_noQuote (cs : List Char) (h : cs.all (fun c => c != '"') = true) :
    escapeChars cs = cs := by
  induction cs with
  | nil => rfl
  | cons c cs ih =>
    simp only [List.all_cons, Bool.and_eq_true, bne_iff_ne, ne_eq] at h
    simp only [escapeChars, h.1, if_false, ih h.2]

theorem decodeString_text (s : String) (h : textTame s = true) :
    decodeString ("\"" ++ Replace s "\"" "\\\"" ++ "\"") = some s := by
  rw [Replace_quote]
  simp only [decodeString, String.data_append, quoteEscaped]
  show (match '"' :: (escapeChars s.data ++ ['"']) with
    | c :: body => if c = '"' then (decodeChars body).map String.mk else none
    | [] => none) = some s
  simp only [if_true, decodeChars_escaped s.data h, Option.map_some']

theorem decodeString_key (k : String) (h : keyTame k = true) :
    decodeString ("\"" ++ k ++ "\"") = some k := by
  have hq : k.data.all (fun c => c != '"') = true := by
    rw [List.all_eq_true]
    intro c hc
    have := List.all_eq_true.1 h c hc
    simp only [Bool.and_eq_true] at this
    exact this.1.1
  have ht : k.data.all (fun c => c != '\\' && !(c.toNat < 32)) = true := by
    rw [List.all_eq_true]
    intro c hc
    have := List.all_eq_true.1 h c hc
    simp only [Bool.and_eq_true] at this
    simp only [Bool.and_eq_true]
    exact ⟨this.1.2, this.2⟩
  simp only [decodeString, String.data_append]
  show (match '"' :: (k.data ++ ['"']) with
    | c :: body => if c = '"' then (decodeChars body).map String.mk else none
    | [] => none) = some k
  have := decodeChars_escaped k.data ht
  rw [escapeChars_noQuote k.data hq] at this
  simp only [if_true, this, Option.map_some']

/-! ## The JSON value of a Go value -/

theorem toJSON_unwrap (js : JSONStringify) {fv v : Value} (h : unwrap fv = some v) :
    toJSON js fv = toJSON js v := by
  cases fv <;> simp only [unwrap, Option.some.injEq, reduceCtorEq] at h <;> subst h
  case ptr e => simp only [toJSON]
  all_goals rfl

theorem emittedField_unwrap (js : JSONStringify) {p : StructField × Value}
    {kv : String × Value} (h : emittedField js p = some kv) :
    unwrap p.2 = some kv.2 ∧ kv.1 = outputKey js p.1 := by
  simp only [emittedField] at h
  cases hu : unwrap p.2 with
  | none => rw [hu] at h; cases h
  | some v =>
    rw [hu] at h
    simp only at h
    split at h
    · cases h; exact ⟨rfl, rfl⟩
    · cases h

theorem policyField_unwrap (js : JSONStringify) {p : StructField × Value}
    {kv : String × Value} (h : policyField js p = some kv) :
    unwrap p.2 = some kv.2 ∧ kv.1 = outputKey js p.1 := by
  simp only [policyField] at h
  cases hu : unwrap p.2 with
  | none => rw [hu] at h; cases h
  | some v =>
    rw [hu] at h
    simp only at h
    split at h
    · cases h; exact ⟨rfl, rfl⟩
    · cases h

theorem membersOf_eq (js : JSONStringify) (fields : List (StructField × Value)) :
    membersOf js fields = (policyFields js fields).map fun p => (p.1, toJSON js p.2) := by
  induction fields with
  | nil => rfl
  | cons p rest ih =>
    obtain ⟨f, fv⟩ := p
    simp only [membersOf, policyFields, List.filterMap_cons]
    cases he : policyField js (f, fv) with
    | none => simpa only [policyFields] using ih
    | some kv =>
      simp only [List.map_cons]
      rw [toJSON_unwrap js (policyField_unwrap js he).1]
      simp only [policyFields] at ih
      rw [ih]

theorem entriesOf_eq (js : JSONStringify) (entries : List (String × Value)) :
    entriesOf js entries = (presentEntries entries).map fun p => (p.1, toJSON js p.2) := by
  induction entries with
  | nil => rfl
  | cons p rest ih =>
    obtain ⟨k, mv⟩ := p
    simp only [entriesOf, presentEntries]
    cases hu : unwrap mv with
    | none => simpa only using ih
    | some v =>
      simp only [List.map_cons, ih]
      rw [toJSON_unwrap js hu]

theorem itemsOf_eq (js : JSONStringify) (elems : List Value) (i : Nat) :
    itemsOf js elems = (presentFrom i elems).map fun p => toJSON js p.2 := by
  induction elems generalizing i with
  | nil => rfl
  | cons ev rest ih =>
    simp only [itemsOf, presentFrom]
    cases hu : unwrap ev with
    | none => simpa only using ih (i + 1)
    | some v =>
      simp only [List.map_cons, ← ih (i + 1)]
      rw [toJSON_unwrap js hu]

theorem presentFrom_mem {elems : List Value} {i : Nat} {p : Nat × Value}
    (h : p ∈ presentFrom i elems) : ∃ ev ∈ elems, unwrap ev = some p.2 := by
  induction elems generalizing i with
  | nil => cases h
  | cons ev rest ih =>
    simp only [presentFrom] at h
    cases hu : unwrap ev with
    | none =>
      rw [hu] at h
      obtain ⟨e, he, hp⟩ := ih h
      exact ⟨e, List.mem_cons_of_mem _ he, hp⟩
    | some v =>
      rw [hu] at h
      rcases List.mem_cons.1 h with rfl | h
      · exact ⟨ev, List.mem_cons_self _ _, hu⟩
      · obtain ⟨e, he, hp⟩ := ih h
        exact ⟨e, List.mem_cons_of_mem _ he, hp⟩

theorem presentEntries_mem {entries : List (String × Value)} {p : String × Value}
    (h : p ∈ presentEntries entries) : ∃ mv, (p.1, mv) ∈ entries ∧ unwrap mv = some p.2 := by
  induction entries with
  | nil => cases h
  | cons q rest ih =>
    obtain ⟨k, mv⟩ := q
    simp only [presentEntries] at h
    cases hu : unwrap mv with
    | none =>
      rw [hu] at h
      obtain ⟨e, he, hp⟩ := ih h
      exact ⟨e, List.mem_cons_of_mem _ he, hp⟩
    | some v =>
      rw [hu] at h
      rcases List.mem_cons.1 h with rfl | h
      · exact ⟨mv, List.mem_cons_self _ _, hu⟩
      · obtain ⟨e, he, hp⟩ := ih h
        exact ⟨e, List.mem_cons_of_mem _ he, hp⟩

theorem tameFields_cons (js : JSONStringify) (f : StructField) (fv : Value)
    (rest : List (StructField × Value)) :
    tameFields js ((f, fv) :: rest) =
      (fieldTame f && followsPolicy js (f, fv) && childTame js fv && tameFields js rest) := by
  cases fv <;> rfl

theorem tameEntries_cons (js : JSONStringify) (k : String) (mv : Value)
    (rest : List (String × Value)) :
    tameEntries js ((k, mv) :: rest) = (keyTame k && childTame js mv && tameEntries js rest) := by
  cases mv <;> rfl

theorem tameElems_cons (js : JSONStringify) (ev : Value) (rest : List Value) :
    tameElems js (ev :: rest) = (childTame js ev && tameElems js rest) := by
  cases ev <;> rfl

theorem tame_child (js : JSONStringify) {fv w : Value} (h : childTame js fv = true)
    (hu : unwrap fv = some w) : tame js false w = true := by
  simpa only [childTame, hu] using h

theorem tameFields_mem (js : JSONStringify) (fields : List (StructField × Value))
    (h : tameFields js fields = true) (p : StructField × Value) (hp : p ∈ fields) :
    fieldTame p.1 = true ∧ followsPolicy js p = true ∧
      ∀ w, unwrap p.2 = some w → tame js false w = true := by
  induction fields with
  | nil => cases hp
  | cons q rest ih =>
    obtain ⟨f, fv⟩ := q
    simp only [tameFields_cons, Bool.and_eq_true] at h
    rcases List.mem_cons.1 hp with rfl | hp
    · exact ⟨h.1.1.1, h.1.1.2, fun w hw => tame_child js h.1.2 hw⟩
    · exact ih h.2 hp

theorem tameEntries_mem (js : JSONStringify) (entries : List (String × Value))
    (h : tameEntries js entries = true) (p : String × Value) (hp : p ∈ entries) :
    keyTame p.1 = true ∧ ∀ w, unwrap p.2 = some w → tame js false w = true := by
  induction entries with
  | nil => cases hp
  | cons q rest ih =>
    obtain ⟨k, mv⟩ := q
    simp only [tameEntries_cons, Bool.and_eq_true] at h
    rcases List.mem_cons.1 hp with rfl | hp
    · exact ⟨h.1.1, fun w hw => tame_child js h.1.2 hw⟩
    · exact ih h.2 hp

theorem tameElems_mem (js : JSONStringify) (elems : List Value)
    (h : tameElems js elems = true) (ev : Value) (hp : ev ∈ elems) :
    ∀ w, unwrap ev = some w → tame js false w = true := by
  induction elems with
  | nil => cases hp
  | cons q rest ih =>
    simp only [tameElems_cons, Bool.and_eq_true] at h
    rcases List.mem_cons.1 hp with rfl | hp
    · exact fun w hw => tame_child js h.1 hw
    · exact ih h.2 hp

theorem Tag_Get_all (q : Char → Bool) (tag : StructTag)
    (h : tag.all (fun p => p.2.data.all q) = true) (name : String) :
    (tag.Get name).data.all q = true := by
  simp only [StructTag.Get]
  cases hf : tag.find? (fun p => p.1 == name) with
  | none => rfl
  | some p =>
    simp only
    exact List.all_eq_true.1 h p (List.mem_of_find?_eq_some hf)

theorem outputKey_tame (js : JSONStringify) (field : StructField)
    (h : fieldTame field = true) : keyTame (outputKey js field) = true := by
  simp only [fieldTame, Bool.and_eq_true] at h
  simp only [outputKey]
  split
  · exact h.1.2
  · have := Tag_Get_all _ field.Tag h.2 (if js.TagName = "" then "json" else js.TagName)
    simp only [keyTame, firstSegment, activeTag]
    rw [List.all_eq_true] at this ⊢
    intro c hc
    exact this c (List.takeWhile_subset _ hc)

theorem allTexts_members (js : JSONStringify) (L : List (String × Value))
    (h : ∀ p ∈ L, keyTame p.1 = true ∧
      ∃ t, do_ js p.1 p.2 false "" = some t ∧ Denotes (toJSON js p.2) t) :
    ∃ parts, allTexts (L.map (fieldText js)) = some parts ∧
      DenotesMembers (L.map fun p => (p.1, toJSON js p.2)) parts := by
  induction L with
  | nil => exact ⟨[], rfl, by simp only [List.map_nil, DenotesMembers]⟩
  | cons p rest ih =>
    obtain ⟨k, v⟩ := p
    obtain ⟨hk, t, ht, hd⟩ := h (k, v) (List.mem_cons_self _ _)
    obtain ⟨parts, hparts, hm⟩ := ih (fun q hq => h q (List.mem_cons_of_mem _ hq))
    refine ⟨("\"" ++ k ++ "\":" ++ t) :: parts, ?_, ?_⟩
    · simp only [List.map_cons, allTexts, fieldText, ht, hparts, Option.map_some',
        Option.some_bind]
    · simp only [List.map_cons, DenotesMembers]
      refine ⟨"\"" ++ k ++ "\"", t, parts, ?_, decodeString_key k hk, hd, hm⟩
      have : ("\":" : String) = "\"" ++ ":" := by decide
      rw [this]
      simp only [String.append_assoc]

theorem allTexts_items (js : JSONStringify) (L : List (Nat × Value))
    (h : ∀ p ∈ L, ∃ t, do_ js (toString p.1) p.2 false "" = some t ∧
      Denotes (toJSON js p.2) t) :
    ∃ parts, allTexts (L.map (elemText js)) = some parts ∧
      DenotesItems (L.map fun p => toJSON js p.2) parts := by
  induction L with
  | nil => exact ⟨[], rfl, by simp only [List.map_nil, DenotesItems]⟩
  | cons p rest ih =>
    obtain ⟨t, ht, hd⟩ := h p (List.mem_cons_self _ _)
    obtain ⟨parts, hparts, hm⟩ := ih (fun q hq => h q (List.mem_cons_of_mem _ hq))
    refine ⟨t :: parts, ?_, ?_⟩
    · simp only [List.map_cons, allTexts, elemText, ht, hparts, Option.some_bind]
    · simp only [List.map_cons, DenotesItems]
      exact ⟨t, parts, rfl, hd, hm⟩

/-! ## The output as a JSON document -/

theorem distinctKeys_members (js : JSONStringify) (L : List (String × Value)) :
    (L.map fun p => (p.1, toJSON js p.2)).map Prod.fst = L.map Prod.fst := by
  simp only [List.map_map]
  rfl

theorem doTarget_json (js : JSONStringify) (hr : js.Replacer = none) (e : Value)
    (he : tame js true e = true)
    (hk : ∀ w ∈ kids e, tame js false w = true →
      ∀ key, ∃ out, do_ js key w false "" = some out ∧ Denotes (toJSON js w) out)
    (key : String) :
    ∃ out, do_ js key (.ptr e) false "" = some out ∧ Denotes (toJSON js e) out := by
  have hrep : ∀ k x, js.replaced k x = none := fun k x => by
    simp [JSONStringify.replaced, hr]
  cases e
  case struct fields =>
    have he2 : tameFields js fields = true ∧
        distinctKeys ((policyFields js fields).map Prod.fst) = true := by
      simpa only [tame, Bool.and_eq_true] using he
    have hf := he2.1
    have hanon : ∀ p ∈ fields, p.1.Anonymous = false := by
      intro p hp
      have := (tameFields_mem js fields hf p hp).1
      simp only [fieldTame, Bool.and_eq_true, Bool.not_eq_true'] at this
      exact this.1.1
    have hpol : policyFields js fields = emittedFields js fields :=
      policyFields_eq js fields (fun p hp => (tameFields_mem js fields hf p hp).2.1)
    obtain ⟨parts, hparts, hm⟩ := allTexts_members js (emittedFields js fields) (by
      intro p hp
      obtain ⟨q, hq, hqe⟩ := List.mem_filterMap.1 hp
      obtain ⟨hu, hkey⟩ := emittedField_unwrap js hqe
      have hq2 := tameFields_mem js fields hf q hq
      refine ⟨by rw [hkey]; exact outputKey_tame js q.1 hq2.1, ?_⟩
      exact hk p.2 (List.mem_filterMap.2 ⟨q, hq, hu⟩) (hq2.2.2 p.2 hu) p.1)
    refine ⟨"\x7b" ++ ",".intercalate parts ++ "\x7d", ?_, ?_⟩
    · rw [do_struct_flat js hr fields hanon key _ (Or.inr rfl) "", hparts]
      simp [String.append_assoc]
    · simp only [toJSON, Denotes, membersOf_eq, distinctKeys_members]
      rw [← hpol] at hm
      exact ⟨he2.2, parts, hm, rfl⟩
  case map entries =>
    have he2 : tameEntries js entries = true ∧
        distinctKeys ((presentEntries entries).map Prod.fst) = true := by
      simpa only [tame, Bool.and_eq_true] using he
    have hf := he2.1
    obtain ⟨parts, hparts, hm⟩ := allTexts_members js (presentEntries entries) (by
      intro p hp
      obtain ⟨mv, hq, hu⟩ := presentEntries_mem hp
      have hq2 := tameEntries_mem js entries hf (p.1, mv) hq
      refine ⟨hq2.1, ?_⟩
      exact hk p.2 (List.mem_filterMap.2 ⟨(p.1, mv), hq, hu⟩) (hq2.2 p.2 hu) p.1)
    refine ⟨"\x7b" ++ ",".intercalate parts ++ "\x7d", ?_, ?_⟩
    · rw [do_map_noReplacer js hr key entries false "" _ (Or.inr rfl), Map_flat, hparts]
      simp [String.append_assoc]
    · simp only [toJSON, Denotes, entriesOf_eq, distinctKeys_members]
      exact ⟨he2.2, parts, hm, rfl⟩
  case slice elems =>
    have hf : tameElems js elems = true := by simpa only [tame] using he
    obtain ⟨parts, hparts, hm⟩ := allTexts_items js (presentFrom 0 elems) (by
      intro p hp
      obtain ⟨ev, hq, hu⟩ := presentFrom_mem hp
      exact hk p.2 (List.mem_filterMap.2 ⟨ev, hq, hu⟩)
        (tameElems_mem js elems hf ev hq p.2 hu) _)
    refine ⟨"[" ++ ",".intercalate parts ++ "]", ?_, ?_⟩
    · rw [do_seq_noReplacer js hr key elems false "" _ (Or.inr (Or.inr (Or.inl rfl))),
        Array_flat, hparts]
      simp [String.append_assoc]
    · simp only [toJSON, Denotes, itemsOf_eq js elems 0]
      exact ⟨parts, hm, rfl⟩
  case array elems =>
    have hf : tameElems js elems = true := by simpa only [tame] using he
    obtain ⟨parts, hparts, hm⟩ := allTexts_items js (presentFrom 0 elems) (by
      intro p hp
      obtain ⟨ev, hq, hu⟩ := presentFrom_mem hp
      exact hk p.2 (List.mem_filterMap.2 ⟨ev, hq, hu⟩)
        (tameElems_mem js elems hf ev hq p.2 hu) _)
    refine ⟨"[" ++ ",".intercalate parts ++ "]", ?_, ?_⟩
    · rw [do_seq_noReplacer js hr key elems false "" _ (Or.inr (Or.inr (Or.inr rfl))),
        Array_flat, hparts]
      simp [String.append_assoc]
    · simp only [toJSON, Denotes, itemsOf_eq js elems 0]
      exact ⟨parts, hm, rfl⟩
  case nilMap =>
    refine ⟨"\x7b" ++ ",".intercalate [] ++ "\x7d", ?_, ?_⟩
    · simp only [do_, doElem, hrep, handledOr]; decide
    · simp only [toJSON, Denotes]
      exact ⟨rfl, [], by simp only [DenotesMembers], rfl⟩
  case nilSlice =>
    refine ⟨"[" ++ ",".intercalate [] ++ "]", ?_, ?_⟩
    · simp only [do_, doElem, hrep, handledOr]; decide
    · simp only [toJSON, Denotes]
      exact ⟨[], by simp only [DenotesItems], rfl⟩
  case str s =>
    refine ⟨"\"" ++ Replace s "\"" "\\\"" ++ "\"", ?_, ?_⟩
    · simp only [do_, doElem, hrep, handledOr, writeQuoted, String.empty_append]
    · simp only [toJSON, Denotes]
      exact decodeString_text s (by simpa only [tame] using he)
  case int i =>
    refine ⟨toString i, ?_, ?_⟩
    · simp only [do_, doElem, hrep, handledOr, castToString, String.empty_append]
    · simp only [toJSON, Denotes, isJSONNumber_toString, and_self]
  case byte b =>
    refine ⟨toString b, ?_, ?_⟩
    · simp only [do_, doElem, hrep, handledOr, castToString, String.empty_append]
    · simp only [toJSON, Denotes, true_and]
      exact isJSONNumber_nat b
  case bool b =>
    refine ⟨toString b, ?_, ?_⟩
    · simp only [do_, doElem, hrep, handledOr, castToString, String.empty_append]
    · simp only [toJSON, Denotes]
  case other t z =>
    refine ⟨t, ?_, ?_⟩
    · simp only [do_, doElem, hrep, handledOr, castToString, String.empty_append]
    · simp only [tame, Bool.or_eq_true, beq_iff_eq] at he
      simp only [toJSON]
      by_cases h1 : t = "true"
      · subst h1; simp only [if_true, Denotes]; rfl
      · by_cases h2 : t = "false"
        · subst h2; simp only [h1, if_false, if_true, Denotes]; rfl
        · simp only [h1, h2, if_false, Denotes, true_and]
          rcases he with (he | he) | he
          · exact absurd he h1
          · exact absurd he h2
          · exact he
  all_goals simp [tame] at he

theorem tame_target (js : JSONStringify) (v : Value) (h : tame js false v = true)
    (hp : ∀ e, v ≠ .ptr e) (hi : ∀ d, v ≠ .iface d) : tame js true v = true := by
  cases v
  case ptr e => exact absurd rfl (hp e)
  case iface d => exact absurd rfl (hi d)
  all_goals exact h

theorem do_json (js : JSONStringify) (hr : js.Replacer = none) (v : Value) :
    tame js false v = true →
      ∀ key, ∃ out, do_ js key v false "" = some out ∧ Denotes (toJSON js v) out := by
  induction v using Value.strong with
  | h v ih =>
    intro ht key
    have hrep : ∀ k x, js.replaced k x = none := fun k x => by
      simp [JSONStringify.replaced, hr]
    have hkids : ∀ w ∈ kids v, tame js false w = true →
        ∀ key, ∃ out, do_ js key w false "" = some out ∧ Denotes (toJSON js w) out :=
      fun w hw => ih w (kids_size hw)
    cases v
    case iface d =>
      simp only [do_, toJSON]
      exact ih d (by simp) (by simpa only [tame, Bool.not_false, Bool.true_and] using ht) key
    case ptr e =>
      simp only [toJSON]
      exact doTarget_json js hr e (by simpa only [tame, Bool.not_false, Bool.true_and] using ht)
        (fun w hw => ih w (by have := kids_size hw; simp; omega)) key
    case nilIface => simp [tame] at ht
    case nilPtr => simp [tame] at ht
    case namedStr s => simp [tame] at ht
    all_goals
      have h := doTarget_json js hr _ (tame_target js _ ht (by simp) (by simp)) hkids key
      simpa only [do_, doElem, hrep, handledOr] using h

/-- C11, as amended: for every input whose texts contain no backslash and no control
character, whose keys contain no double quote, backslash or control character and are
distinct within each object, whose scalars have a JSON number or a boolean as canonical
text, whose records have no anonymous field, on whose fields the omit-if-empty test of the
code gives the answer of the policy, and in which `do` meets no empty reference, no defined
string type and no pointer to a pointer or to an interface, rendered with no Replacer: the
call returns a text of the JSON grammar, and the value it denotes is the JSON value of the
input (the objects of the fields the specification emits and of the entries, the arrays of
the elements, the same scalars); in particular a text value without backslash and control
character parses back to itself. -/
theorem json_round_trip (js : JSONStringify) (hr : js.Replacer = none) (v : Value)
    (ht : tame js false v = true) (key : String) :
    (∃ out, do_ js key v false "" = some out ∧ Denotes (toJSON js v) out) ∧
    (∀ pool : Pool, tame (entryWriter pool none) false v = true →
      ∃ out, (String_ pool v none).1 = some out ∧
        Denotes (toJSON (entryWriter pool none) v) out) ∧
    (∀ (s : String) (pool : Pool), textTame s = true →
      (String_ pool (.str s) none).1.bind decodeString = some s) := by
  refine ⟨do_json js hr v ht key, fun pool hp => ?_, fun s pool hs => ?_⟩
  · rw [String_fst]
    exact do_json (entryWriter pool none) rfl v hp ""
  · obtain ⟨out, ho, hd⟩ := do_json (entryWriter pool none) rfl (.str s)
      (by simpa only [tame] using hs) ""
    rw [String_fst, ho]
    simpa only [toJSON, Denotes, Option.some_bind] using hd

/-- The round-trip theorem at the record of measurements, which holds a float, a byte and
a pointer under the omit-if-empty modifier, and at the fields that the test type `Me`
declares itself. -/
theorem json_round_trip_witness :
    tame ⟨"", "", none⟩ false (.struct measuredRecord) = true ∧
    do_ ⟨"", "", none⟩ "" (.struct measuredRecord) false "" =
      some "\x7b\"ratio\":-1.5,\"flag\":7,\"note\":\"a\\\"b\"\x7d" ∧
    (∃ out, do_ ⟨"", "", none⟩ "" (.struct measuredRecord) false "" = some out ∧
      Denotes (toJSON ⟨"", "", none⟩ (.struct measuredRecord)) out) ∧
    tame ⟨"", "", none⟩ false (.struct meOwnFields) = true :=
  ⟨by decide, by decide,
    (json_round_trip ⟨"", "", none⟩ rfl (.struct measuredRecord) (by decide) "").1,
    by decide⟩

/-- C11, the claim as stated fails: a text value that is a single backslash is written as
`"\"`, which is not a JSON string (the backslash escapes the closing quote); the text of a
backslash followed by `n` is written as `"a\nb"`, which parses to a line break and not to
the input; a text with a line break is written with the raw control character, which a
JSON parser rejects. The other conditions of the amended claim are needed as well: two
fields under one key are both written, so the object has a repeated name; a scalar whose
canonical text is `NaN` is written as such, which is no JSON number; a text behind a
pointer to an interface is written without quotes; and a field `Funny` that points to
`false` under the omit-if-empty modifier is emitted by the specification but not written
by the code, so that record and the record with a field tagged `omitempty` are not among
the inputs of the amended claim. -/
theorem json_round_trip_counterexample :
    (String_ [] (.str "\\") none).1 = some "\"\\\"" ∧
    decodeString "\"\\\"" = none ∧
    (String_ [] (.str "a\\nb") none).1 = some "\"a\\nb\"" ∧
    decodeString "\"a\\nb\"" = some "a\nb" ∧
    (String_ [] (.str "a\nb") none).1 = some "\"a\nb\"" ∧
    decodeString "\"a\nb\"" = none ∧
    (String_ [] (.struct [(jsonField "A" "x", .int 1), (jsonField "B" "x", .int 2)]) none).1 =
      some "\x7b\"x\":1,\"x\":2\x7d" ∧
    (String_ [] (.other "NaN" false) none).1 = some "NaN" ∧
    isJSONNumber "NaN" = false ∧
    (String_ [] (.ptr (.iface (.str "a"))) none).1 = some "a" ∧
    (policyFields ⟨"", "", none⟩
      [(jsonField "Funny" "funny,omitempty", .ptr (.bool false))]).map Prod.fst = ["funny"] ∧
    (String_ [] (funnyRecord (.ptr (.bool false))) none).1 = some "\x7b\x7d" ∧
    tame ⟨"", "", none⟩ false (funnyRecord (.ptr (.bool false))) = false ∧
    tame ⟨"", "", none⟩ false (intRecord "omitempty" 0) = false := by
  refine ⟨by decide, by decide, by decide, by decide, by decide, by decide, by decide,
    by decide, by decide, by decide, by decide, by decide, by decide, by decide⟩

end Stringify
